import Mathlib

/-!
Verification of the educational content production pipeline.

This file shallowly embeds the parts of the repository that the verified
properties are about: the unified-script parsers of the TTS service
(tts-service/unified_script_parser.py) and of the video-generation service
(video-generation-service/src/unifiedScriptParser.py), the script cleaner
(tts-service/utils/script_cleaner.py), the control flow of the TTS
generation entry point (tts-service/generate_unified.py), and the
scene-duration / audio-synchronisation arithmetic of the professional video
generator (video-generation-service/src/professionalVideoGenerator.py).

Modelling conventions: Python strings are lists of characters; Python
floats are rationals, so the duration arithmetic is exact; fallible Python
code returns Except values whose error component models the raised
exception.  The regular-expression extractions of the source are embedded
as explicit scanners with the same matching semantics (leftmost search,
greedy character classes with the induced backtracking, lazy groups bounded
by lookaheads, non-overlapping iteration for finditer and sub).
-/

namespace Pipeline

/-- Python whitespace (the regex whitespace class, ASCII range). -/
def pyWS (c : Char) : Bool :=
  c = ' ' || c = '\t' || c = '\n' || c = '\r' || c = Char.ofNat 11 || c = Char.ofNat 12

/-- ASCII digit test. -/
def isDigitB (c : Char) : Bool := '0' ≤ c && c ≤ '9'

/-- ASCII word-character test (the regex word class restricted to ASCII). -/
def isWordB (c : Char) : Bool :=
  isDigitB c || ('a' ≤ c && c ≤ 'z') || ('A' ≤ c && c ≤ 'Z') || c = '_'

/-- The backtick character. -/
def btick : Char := Char.ofNat 96

/-- The single-quote character. -/
def squote : Char := Char.ofNat 39

/-- String literals as character lists. -/
def lc (s : String) : List Char := s.toList

/-- Match a literal prefix, returning the remainder on success. -/
def chopLit : List Char → List Char → Option (List Char)
  | [], s => some s
  | _ :: _, [] => none
  | p :: ps, c :: cs => if p = c then chopLit ps cs else none

/-- Decide whether the second list starts with the first. -/
def startsL (p s : List Char) : Bool := (chopLit p s).isSome

/-- Python str.strip: drop whitespace from both ends. -/
def pyStrip (s : List Char) : List Char :=
  ((s.dropWhile pyWS).reverse.dropWhile pyWS).reverse

/-- Python str.strip with an explicit set of characters to remove. -/
def stripSet (cs : List Char) (s : List Char) : List Char :=
  ((s.dropWhile (cs.contains ·)).reverse.dropWhile (cs.contains ·)).reverse

/-- Numeric value of a digit string (int() applied to the digits captured by
the scene-header regex). -/
def digitsVal (ds : List Char) : Nat :=
  ds.foldl (fun a c => 10 * a + (c.toNat - 48)) 0

/-- CPython float() on the strings captured by the digits-or-dot character
class: defined iff there is at most one dot and at least one digit. -/
def pyFloatDigits (ds : List Char) : Option ℚ :=
  let ip := ds.takeWhile isDigitB
  match ds.dropWhile isDigitB with
  | [] => if ds.isEmpty then none else some (digitsVal ds)
  | c :: frac =>
    if c = '.' then
      if frac.all isDigitB then
        if ip.isEmpty && frac.isEmpty then none
        else some ((digitsVal ip : ℚ) + (digitsVal frac : ℚ) / 10 ^ frac.length)
      else none
    else none

/-- Decimal exponent part of a float literal, applied to the mantissa; the
whole remainder must be consumed. -/
def expPart (m : ℚ) : List Char → Option ℚ
  | [] => some m
  | c :: r =>
    if c = 'e' || c = 'E' then
      let p : Bool × List Char :=
        match r with
        | d :: rr => if d = '-' then (false, rr) else if d = '+' then (true, rr) else (true, r)
        | [] => (true, [])
      let ds := p.2.takeWhile isDigitB
      let r3 := p.2.dropWhile isDigitB
      if ds.isEmpty || !r3.isEmpty then none
      else some (if p.1 then m * 10 ^ digitsVal ds else m / 10 ^ digitsVal ds)
    else none

/-- Unsigned part of a float literal: digits with an optional dot, then an
optional exponent; at least one digit is required. -/
def pyFloatCore (t : List Char) : Option ℚ :=
  let ip := t.takeWhile isDigitB
  match t.dropWhile isDigitB with
  | [] => if ip.isEmpty then none else some (digitsVal ip)
  | c :: r2 =>
    if c = '.' then
      let fp := r2.takeWhile isDigitB
      let r3 := r2.dropWhile isDigitB
      if ip.isEmpty && fp.isEmpty then none
      else expPart ((digitsVal ip : ℚ) + (digitsVal fp : ℚ) / 10 ^ fp.length) r3
    else if ip.isEmpty then none
    else expPart (digitsVal ip) (c :: r2)

/-- CPython float() on general strings, restricted to finite decimal forms
(optional surrounding whitespace, optional sign, digits with an optional dot
and an optional decimal exponent); inf, nan and underscore separators are
not modelled. -/
def pyFloatQ (s : List Char) : Option ℚ :=
  match pyStrip s with
  | [] => none
  | c :: r =>
    if c = '-' then (pyFloatCore r).map (fun q => -q)
    else if c = '+' then pyFloatCore r
    else pyFloatCore (c :: r)

/-- Leftmost regex search: try the matcher at every position, advancing one
character at a time, exactly as re.search scans. -/
def searchWith (m : List Char → Option α) : List Char → Option α
  | [] => m []
  | c :: rest =>
    match m (c :: rest) with
    | some a => some a
    | none => searchWith m rest

/-- Non-overlapping left-to-right collection of matches (re.finditer /
re.findall): on a match the matcher returns the captured value and the
remainder after the match.  The fuel bounds the scan; callers pass the input
length plus one, which is never exhausted because every step of the scan
consumes at least one character of the input. -/
def scanCollect (m : List Char → Option (α × List Char)) : Nat → List Char → List α
  | 0, _ => []
  | _, [] => []
  | fuel + 1, c :: rest =>
    match m (c :: rest) with
    | some (a, r) => a :: scanCollect m fuel r
    | none => scanCollect m fuel rest

/-- Non-overlapping left-to-right replacement (re.sub): on a match the
matcher returns the replacement text and the remainder after the match;
fuel as in scanCollect. -/
def scanSub (m : List Char → Option (List Char × List Char)) : Nat → List Char → List Char
  | 0, s => s
  | _, [] => []
  | fuel + 1, c :: rest =>
    match m (c :: rest) with
    | some (out, r) => out ++ scanSub m fuel r
    | none => c :: scanSub m fuel rest

/-- Lazy group capture: take characters until the stop lookahead holds. -/
def lazyTake (stop : List Char → Bool) : List Char → List Char
  | [] => []
  | c :: rest => if stop (c :: rest) then [] else c :: lazyTake stop rest

/-- Suffix of a whitespace run after its last newline: the backtracking of a
greedy whitespace star followed by a literal newline lands on the last
newline of the run, so the following group starts with this suffix. -/
def afterLastNL (run : List Char) : List Char :=
  (run.reverse.takeWhile (fun c => !(c = '\n'))).reverse

/-- Python str.split on a single character. -/
def splitOnCh (sep : Char) : List Char → List (List Char)
  | [] => [[]]
  | c :: rest =>
    if c = sep then [] :: splitOnCh sep rest
    else
      match splitOnCh sep rest with
      | h :: t => (c :: h) :: t
      | [] => [[c]]

/-- Newline-join of a list of strings. -/
def joinNL : List (List Char) → List Char
  | [] => []
  | [l] => l
  | l :: rest => l ++ '\n' :: joinNL rest

/-- The lines contained in a string: none for the empty string, otherwise
the newline-split components. -/
def linesOf (s : List Char) : List (List Char) :=
  if s.isEmpty then [] else splitOnCh '\n' s

/-- ASCII lower-casing of one character (str.lower on the messages involved). -/
def lowerA (c : Char) : Char :=
  if 'A' ≤ c && c ≤ 'Z' then Char.ofNat (c.toNat + 32) else c

/-- ASCII lower-casing of a string. -/
def lowerL (s : List Char) : List Char := s.map lowerA

/-- Python substring containment. -/
def containsSub (pat : List Char) : List Char → Bool
  | [] => startsL pat []
  | c :: rest => startsL pat (c :: rest) || containsSub pat rest

/-- Python exception values raised by the embedded code. -/
inductive PyExn where
  | valueError (msg : List Char)
  | runtimeError (msg : List Char)
  | systemExit (code : Nat)
  | otherError (msg : List Char)
deriving DecidableEq

/-- Whether a fallible computation returned normally. -/
def excOk : Except PyExn α → Bool
  | .ok _ => true
  | .error _ => false

/-- Evaluate fallible computations left to right, stopping at the first
raised exception (the python for-loop that builds the scene list). -/
def mapExc (f : α → Except PyExn β) : List α → Except PyExn (List β)
  | [] => .ok []
  | a :: as =>
    match f a with
    | .error e => .error e
    | .ok b =>
      match mapExc f as with
      | .error e => .error e
      | .ok bs => .ok (b :: bs)

/-- Match the scene-header regex (open bracket, the literal word scene, one
or more whitespace characters, one or more digits, close bracket) at the
current position, returning the scene number and the remainder. -/
def matchSceneHeader (s : List Char) : Option (Nat × List Char) :=
  match chopLit (lc "[scene") s with
  | none => none
  | some r1 =>
    let ws := r1.takeWhile pyWS
    let r2 := r1.dropWhile pyWS
    if ws.isEmpty then none
    else
      let ds := r2.takeWhile isDigitB
      let r3 := r2.dropWhile isDigitB
      if ds.isEmpty then none
      else
        match r3 with
        | c :: rest => if c = ']' then some (digitsVal ds, rest) else none
        | [] => none

/-- The zero-width lookahead that ends a scene block: a newline followed by
three dashes, a newline followed by a scene header, or the end of input. -/
def sceneStop (r : List Char) : Bool :=
  r.isEmpty || startsL (lc "\n---") r || startsL (lc "\n[scene") r

/-- Raw content of a scene block: the characters up to the block lookahead,
paired with the remainder of the input. -/
def takeContent : List Char → List Char × List Char
  | [] => ([], [])
  | c :: rest =>
    if sceneStop (c :: rest) then ([], c :: rest)
    else
      let p := takeContent rest
      (c :: p.1, p.2)

/-- One finditer step of the scene-block regex. -/
def blockM (s : List Char) : Option ((Nat × List Char) × List Char) :=
  match matchSceneHeader s with
  | none => none
  | some (n, after) =>
    let p := takeContent after
    some ((n, p.1), p.2)

/-- All scene blocks of a script, in order of occurrence: the finditer loop
over the scene-block regex shared verbatim by both parsers.  Each element
pairs the scene number of the block header with the block's raw content,
which ends at the next line starting with three dashes, the next line
starting with a scene header, or the end of input. -/
def sceneBlocks (content : List Char) : List (Nat × List Char) :=
  scanCollect blockM (content.length + 1) content

/-- Lookahead of the narration group: a newline followed by a key (word
characters and a colon). -/
def nlKeyAhead (r : List Char) : Bool :=
  match r with
  | c :: rest =>
    c = '\n' && !(rest.takeWhile isWordB).isEmpty &&
      (match rest.dropWhile isWordB with
       | d :: _ => d = ':'
       | [] => false)
  | [] => false

/-- Stop condition of the lazy narration group: the next-key lookahead or
the end-of-string anchor (which also matches before a final newline). -/
def narrStop (r : List Char) : Bool :=
  r.isEmpty || r == ['\n'] || nlKeyAhead r

/-- After a keyword: whitespace, a pipe, whitespace ending in a newline,
then the lazy group up to the stop lookahead.  The greedy whitespace before
the literal newline backtracks to the last newline of the run, so the group
starts right after that newline. -/
def pipeThen (stop : List Char → Bool) (s : List Char) : Option (List Char) :=
  match s.dropWhile pyWS with
  | c :: r3 =>
    if c = '|' then
      let run := r3.takeWhile pyWS
      let r4 := r3.dropWhile pyWS
      if run.contains '\n' then some (lazyTake stop (afterLastNL run ++ r4))
      else none
    else none
  | [] => none

/-- Match a keyword followed by a pipe block at the current position. -/
def matchPipeBlock (kw : List Char) (stop : List Char → Bool) (s : List Char) :
    Option (List Char) :=
  match chopLit kw s with
  | some r1 => pipeThen stop r1
  | none => none

/-- Narration of a scene's stripped content: the stripped narration group,
or the empty string when the narration regex does not match.  This line of
the source is character-identical in the TTS-service parser and in the
video-service parser, so both embeddings share it. -/
def narrationOf (sc : List Char) : List Char :=
  match searchWith (matchPipeBlock (lc "narration:") narrStop) sc with
  | some g => pyStrip g
  | none => []

/-- Visual description of a scene (video-service parser). -/
def visualOf (sc : List Char) : List Char :=
  match searchWith (matchPipeBlock (lc "visual:") narrStop) sc with
  | some g => pyStrip g
  | none => []

/-- Match a keyword followed by optional whitespace and a double-quoted
nonempty value at the current position. -/
def matchQuotedVal (kw : List Char) (s : List Char) : Option (List Char) :=
  match chopLit kw s with
  | none => none
  | some r1 =>
    match r1.dropWhile pyWS with
    | c :: r2 =>
      if c = '"' then
        let q := r2.takeWhile (fun d => !(d = '"'))
        if q.isEmpty then none
        else
          match r2.dropWhile (fun d => !(d = '"')) with
          | d :: _ => if d = '"' then some q else none
          | [] => none
      else none
    | [] => none

/-- Search for a quoted key-value field anywhere in the scene content. -/
def quotedOf (kw : List Char) (sc : List Char) : Option (List Char) :=
  searchWith (matchQuotedVal kw) sc

/-- Match a keyword followed by optional whitespace and a nonempty run of
digits and dots (the speed regex). -/
def matchNumTok (kw : List Char) (s : List Char) : Option (List Char) :=
  match chopLit kw s with
  | none => none
  | some r1 =>
    let r2 := r1.dropWhile pyWS
    let num := r2.takeWhile (fun c => isDigitB c || c = '.')
    if num.isEmpty then none else some num

/-- The raw token captured by the speed regex, if it matches anywhere. -/
def speedTokOf (sc : List Char) : Option (List Char) :=
  searchWith (matchNumTok (lc "speed:")) sc

/-- Scene speed: the default 1.05 when the speed regex does not match,
otherwise float() of the captured token, which raises ValueError on a
malformed token such as a lone dot. -/
def speedExc (sc : List Char) : Except PyExn ℚ :=
  match speedTokOf sc with
  | none => .ok (105 / 100)
  | some ds =>
    match pyFloatDigits ds with
    | some q => .ok q
    | none => .error (.valueError (lc "could not convert string to float: " ++ ds))

/-- Match the shared prefix of the pauses regexes: the pauses keyword,
whitespace containing a newline, then a dash, whitespace, and a nonempty
double-quoted item, returning the first quoted item. -/
def matchPausesItem (s : List Char) : Option (List Char) :=
  match chopLit (lc "pauses:") s with
  | none => none
  | some r1 =>
    let run := r1.takeWhile pyWS
    if run.contains '\n' then
      match r1.dropWhile pyWS with
      | c :: r3 =>
        if c = '-' then
          match r3.dropWhile pyWS with
          | d :: r4 =>
            if d = '"' then
              let q := r4.takeWhile (fun x => !(x = '"'))
              if q.isEmpty then none
              else
                match r4.dropWhile (fun x => !(x = '"')) with
                | x :: _ => if x = '"' then some q else none
                | [] => none
            else none
          | [] => none
        else none
      | [] => none
    else none

/-- One findall step of the dash-quoted regex used for pause items. -/
def dashQuotedM (s : List Char) : Option (List Char × List Char) :=
  match s with
  | c :: r1 =>
    if c = '-' then
      match r1.dropWhile pyWS with
      | d :: r2 =>
        if d = '"' then
          let q := r2.takeWhile (fun x => !(x = '"'))
          if q.isEmpty then none
          else
            match r2.dropWhile (fun x => !(x = '"')) with
            | x :: rest => if x = '"' then some (q, rest) else none
            | [] => none
        else none
      | [] => none
    else none
  | [] => none

/-- findall of the dash-quoted regex over the scene content. -/
def dashQuotedAll (sc : List Char) : List (List Char) :=
  scanCollect dashQuotedM (sc.length + 1) sc

/-- The duration string of a scene: the quoted duration field, defaulting
to the literal string 5s. -/
def durationStrOf (sc : List Char) : List Char :=
  (quotedOf (lc "duration:") sc).getD (lc "5s")

/-- parse_duration of the video-service parser: strip whitespace and quote
characters, drop a trailing letter s, then float(), which raises ValueError
when the remainder is not a float literal. -/
def parse_duration (s : List Char) : Except PyExn ℚ :=
  let d1 := pyStrip s
  let d2 := stripSet ['"'] d1
  let d3 := stripSet [squote] d2
  let core :=
    match d3.reverse with
    | c :: _ => if c = 's' then d3.dropLast else d3
    | [] => d3
  match pyFloatQ core with
  | some q => .ok q
  | none => .error (.valueError (lc "could not convert string to float: " ++ core))

/-- TTS settings of a scene (both parsers). -/
structure TTSSettings where
  speed : ℚ
  tone : List Char
  pauses : List (List Char)
deriving DecidableEq

/-- A scene as returned by the TTS-service parser (a dict in the source). -/
structure TTSScene where
  scene_number : Nat
  narration : List Char
  tts_settings : TTSSettings
  duration : List Char
deriving DecidableEq

/-- The default tone. -/
def defaultTone : List Char := lc "Educational and energetic"

/-- Scene tone: the quoted tone field or the default. -/
def toneOf (sc : List Char) : List Char := (quotedOf (lc "tone:") sc).getD defaultTone

/-- Build one TTS-service scene from a scene block: strip the raw content,
then extract narration, speed (the only fallible field), tone, pauses and
the duration string, substituting the documented defaults. -/
def ttsSceneOfBlock (b : Nat × List Char) : Except PyExn TTSScene :=
  let sc := pyStrip b.2
  match speedExc sc with
  | .error e => .error e
  | .ok sp =>
    .ok ⟨b.1, narrationOf sc,
         ⟨sp, toneOf sc,
          if (searchWith matchPausesItem sc).isSome then dashQuotedAll sc else []⟩,
         durationStrOf sc⟩

/-- The TTS-service parser (tts-service/unified_script_parser.py,
parse_unified_script) applied to script text; the source reads the file
first, which is elided. -/
def tts_parse_unified_script (content : List Char) : Except PyExn (List TTSScene) :=
  mapExc ttsSceneOfBlock (sceneBlocks content)

/-- extract_all_narration of the TTS service: empty for an empty scene
list; with join_scenes, the narrations joined by newlines where a scene
whose number is less than the number of scenes gets a trailing pause
marker; otherwise the first scene's narration. -/
def extract_all_narration (content : List Char) (join_scenes : Bool) :
    Except PyExn (List Char) :=
  match tts_parse_unified_script content with
  | .error e => .error e
  | .ok scenes =>
    match scenes with
    | [] => .ok []
    | s0 :: _ =>
      if join_scenes then
        .ok (joinNL (scenes.map (fun sc =>
          if sc.scene_number < scenes.length then sc.narration ++ lc "... " else sc.narration)))
      else .ok s0.narration

/-- get_tts_settings with no scene number: the first scene's settings, or
the defaults when the script has no scenes. -/
def get_tts_settings (content : List Char) : Except PyExn TTSSettings :=
  match tts_parse_unified_script content with
  | .error e => .error e
  | .ok [] => .ok ⟨105 / 100, defaultTone, []⟩
  | .ok (s0 :: _) => .ok s0.tts_settings

/-- Video settings of a scene (video-service parser). -/
structure VideoSettings where
  camera : List Char
  mood : List Char
  animated : List Char
  background : List Char
deriving DecidableEq

/-- Code block of a scene (video-service parser). -/
structure CodeBlock where
  read_aloud : Bool
  content : List Char
deriving DecidableEq

/-- Assets of a scene: the dict built by the video-service parser, with the
keys that were found. -/
structure Assets where
  music : Option (List Char)
  icons : Option (List (List Char))
  diagram : Option (List Char)
deriving DecidableEq

/-- A scene as returned by the video-service parser.  The source field
named after the width-to-height proportion is called aspect here. -/
structure Scene where
  scene_number : Nat
  narration : List Char
  visual : List Char
  duration : ℚ
  tts_settings : TTSSettings
  video_settings : VideoSettings
  aspect : List Char
  code : Option CodeBlock
  transitions : Option (List Char)
  assets : Option Assets
deriving DecidableEq

/-- Match the literal true or false of the read_aloud field. -/
def matchTrueFalse (s : List Char) : Option (Bool × List Char) :=
  match chopLit (lc "true") s with
  | some r => some (true, r)
  | none =>
    match chopLit (lc "false") s with
    | some r => some (false, r)
    | none => none

/-- Whitespace star, a newline, whitespace star: the maximal whitespace run
must contain a newline; returns the remainder after the run. -/
def wsRunNL (s : List Char) : Option (List Char) :=
  if (s.takeWhile pyWS).contains '\n' then some (s.dropWhile pyWS) else none

/-- One step of the multiline substitution removing an opening markdown
fence: three backticks, word characters, and a newline, matched only at a
line start; returns the remainder after the removed match. -/
def fenceOpenM (s : List Char) : Option (List Char) :=
  match chopLit (lc "```") s with
  | none => none
  | some r1 =>
    match r1.dropWhile isWordB with
    | c :: rest => if c = '\n' then some rest else none
    | [] => none

/-- The multiline re.sub removing opening markdown fences, tracking whether
the scan is at a line start. -/
def subFenceOpenGo : Nat → Bool → List Char → List Char
  | 0, _, s => s
  | _, _, [] => []
  | fuel + 1, atStart, c :: rest =>
    if atStart then
      match fenceOpenM (c :: rest) with
      | some r => subFenceOpenGo fuel true r
      | none => c :: subFenceOpenGo fuel (c = '\n') rest
    else c :: subFenceOpenGo fuel (c = '\n') rest

/-- Opening-fence removal over a whole code block. -/
def subFenceOpen (s : List Char) : List Char := subFenceOpenGo (s.length + 1) true s

/-- One step of the multiline substitution removing a closing markdown
fence: a newline, three backticks, then greedy whitespace up to an
end-of-line anchor; the greedy whitespace backtracks to the last newline of
the run unless the run reaches the end of the string. -/
def fenceCloseM (s : List Char) : Option (List Char × List Char) :=
  match s with
  | c :: r =>
    if c = '\n' then
      match chopLit (lc "```") r with
      | none => none
      | some r2 =>
        let run := r2.takeWhile pyWS
        let rest := r2.dropWhile pyWS
        if rest.isEmpty then some ([], [])
        else if run.contains '\n' then some ([], '\n' :: (afterLastNL run ++ rest))
        else none
    else none
  | [] => none

/-- Closing-fence removal over a whole code block. -/
def subFenceClose (s : List Char) : List Char := scanSub fenceCloseM (s.length + 1) s

/-- Markdown fence removal applied to an extracted code block, in source
order: opening fences first, then closing fences. -/
def fenceClean (s : List Char) : List Char := subFenceClose (subFenceOpen s)

/-- Match the first code-block format at the current position: the code key,
whitespace with a newline, read_aloud with a boolean, whitespace with a
newline, content with a pipe block running to the scene lookahead. -/
def matchCodeFmtOne (s : List Char) : Option CodeBlock :=
  match chopLit (lc "code:") s with
  | none => none
  | some r1 =>
    match wsRunNL r1 with
    | none => none
    | some r2 =>
      match chopLit (lc "read_aloud:") r2 with
      | none => none
      | some r3 =>
        match matchTrueFalse (r3.dropWhile pyWS) with
        | none => none
        | some (b, r4) =>
          match wsRunNL r4 with
          | none => none
          | some r5 =>
            match chopLit (lc "content:") r5 with
            | none => none
            | some r6 =>
              match pipeThen sceneStop r6 with
              | none => none
              | some g => some ⟨b, fenceClean (pyStrip g)⟩

/-- Match the second code-block format at the current position: the dotted
content key with a pipe block running to the scene lookahead; read_aloud is
false in this format. -/
def matchCodeFmtTwo (s : List Char) : Option CodeBlock :=
  match chopLit (lc "code.content:") s with
  | none => none
  | some r1 =>
    match pipeThen sceneStop r1 with
    | none => none
    | some g => some ⟨false, fenceClean (pyStrip g)⟩

/-- Code block of a scene: the first format if it matches anywhere,
otherwise the second format. -/
def codeOf (sc : List Char) : Option CodeBlock :=
  match searchWith matchCodeFmtOne sc with
  | some cb => some cb
  | none => searchWith matchCodeFmtTwo sc

/-- Match the transitions field: the transitions keyword, whitespace with a
newline, then the quoted next key. -/
def matchTransNext (s : List Char) : Option (List Char) :=
  match chopLit (lc "transitions:") s with
  | none => none
  | some r1 =>
    match wsRunNL r1 with
    | none => none
    | some r2 => matchQuotedVal (lc "next:") r2

/-- Match the icons field: the icons keyword, whitespace, an open square
bracket, then a lazy group that cannot cross a newline, closed by a square
bracket. -/
def matchIcons (s : List Char) : Option (List Char) :=
  match chopLit (lc "icons:") s with
  | none => none
  | some r1 =>
    match r1.dropWhile pyWS with
    | c :: r2 =>
      if c = '[' then
        let inner := r2.takeWhile (fun d => !(d = ']') && !(d = '\n'))
        match r2.dropWhile (fun d => !(d = ']') && !(d = '\n')) with
        | d :: _ => if d = ']' then some inner else none
        | [] => none
      else none
    | [] => none

/-- Match the assets field at the current position: the assets keyword,
whitespace ending in a newline, then a lazy group up to the scene
lookahead, in which the music, icons and diagram keys are searched; found
keys populate the assets dict, which may be empty. -/
def matchAssets (s : List Char) : Option Assets :=
  match chopLit (lc "assets:") s with
  | none => none
  | some r1 =>
    let run := r1.takeWhile pyWS
    if run.contains '\n' then
      let g := lazyTake sceneStop (afterLastNL run ++ r1.dropWhile pyWS)
      some ⟨quotedOf (lc "music:") g,
            (searchWith matchIcons g).map
              (fun inner => (splitOnCh ',' inner).map (fun i => stripSet ['"'] (pyStrip i))),
            quotedOf (lc "diagram:") g⟩
    else none

/-- Scene duration of the video-service parser: parse_duration of the
duration string (fallible). -/
def durationExc (sc : List Char) : Except PyExn ℚ :=
  parse_duration (durationStrOf sc)

/-- Build one video-service scene from a scene block, in source order:
narration, visual, duration (fallible), speed (fallible), tone, pauses,
video settings, aspect, code, transitions and assets, substituting the
documented defaults for missing fields. -/
def videoSceneOfBlock (b : Nat × List Char) : Except PyExn Scene :=
  let sc := pyStrip b.2
  match durationExc sc with
  | .error e => .error e
  | .ok dur =>
    match speedExc sc with
    | .error e => .error e
    | .ok sp =>
      .ok ⟨b.1, narrationOf sc, visualOf sc, dur,
           ⟨sp, toneOf sc,
            match searchWith matchPausesItem sc with
            | some q => [q]
            | none => []⟩,
           ⟨(quotedOf (lc "camera:") sc).getD (lc "static front"),
            (quotedOf (lc "mood:") sc).getD (lc "modern, clean, minimal"),
            (quotedOf (lc "animation:") sc).getD [],
            (quotedOf (lc "background:") sc).getD (lc "dark gradient")⟩,
           (quotedOf (lc "ratio:") sc).getD (lc "16:9"),
           codeOf sc,
           searchWith matchTransNext sc,
           searchWith matchAssets sc⟩

/-- The video-service parser
(video-generation-service/src/unifiedScriptParser.py, parse_unified_script)
applied to script text; the source reads the file first, which is elided. -/
def video_parse_unified_script (content : List Char) : Except PyExn (List Scene) :=
  mapExc videoSceneOfBlock (sceneBlocks content)

/-- get_total_duration: the sum of the scene durations. -/
def get_total_duration (scenes : List Scene) : ℚ :=
  (scenes.map Scene.duration).sum

/-- Case-insensitive literal prefix match. -/
def chopLitCI : List Char → List Char → Option (List Char)
  | [], s => some s
  | _ :: _, [] => none
  | p :: ps, c :: cs => if lowerA p = lowerA c then chopLitCI ps cs else none

/-- All remaining characters are whitespace (the trailing whitespace-star
and end anchor of the header patterns). -/
def allWSend (s : List Char) : Bool := s.all pyWS

/-- Header pattern without asterisks: the keyword, whitespace, end. -/
def plainHdr (kw : List Char) (line : List Char) : Bool :=
  match chopLitCI kw line with
  | some r => allWSend r
  | none => false

/-- Trailing one-or-two asterisks, whitespace, end. -/
def starTail (r : List Char) : Bool :=
  (match chopLit (lc "**") r with
   | some rr => allWSend rr
   | none => false) ||
  (match chopLit (lc "*") r with
   | some rr => allWSend rr
   | none => false)

/-- Header pattern with asterisks: one or two asterisks, the keyword, one
or two asterisks, whitespace, end. -/
def starHdr (kw : List Char) (line : List Char) : Bool :=
  let oneStar : Option (List Char) :=
    match chopLit (lc "*") line with
    | some r1 => chopLitCI kw r1
    | none => none
  let afterStars : Option (List Char) :=
    match chopLit (lc "**") line with
    | some r =>
      match chopLitCI kw r with
      | some rr => some rr
      | none => oneStar
    | none => oneStar
  match afterStars with
  | some r => starTail r
  | none => false

/-- The section-header keywords removed by the cleaner. -/
def headerKws : List (List Char) :=
  [lc "HOOK", lc "INTRO", lc "MAIN CONTENT", lc "EXAMPLE", lc "SUMMARY",
   lc "CTA", lc "CONCLUSION"]

/-- Whether a line matches one of the section-header patterns
(case-insensitively, with or without asterisk emphasis). -/
def isHeaderLine (line : List Char) : Bool :=
  headerKws.any (fun kw => starHdr kw line || plainHdr kw line)

/-- One step of the bold substitution: two asterisks, a nonempty run free of
asterisks, two asterisks; replaced by the inner run. -/
def boldM (s : List Char) : Option (List Char × List Char) :=
  match chopLit (lc "**") s with
  | none => none
  | some r1 =>
    let q := r1.takeWhile (fun c => !(c = '*'))
    if q.isEmpty then none
    else
      match chopLit (lc "**") (r1.dropWhile (fun c => !(c = '*'))) with
      | some rest => some (q, rest)
      | none => none

/-- One step of the italic substitution: one asterisk, a nonempty run free
of asterisks, one asterisk; replaced by the inner run. -/
def starM (s : List Char) : Option (List Char × List Char) :=
  match chopLit (lc "*") s with
  | none => none
  | some r1 =>
    let q := r1.takeWhile (fun c => !(c = '*'))
    if q.isEmpty then none
    else
      match r1.dropWhile (fun c => !(c = '*')) with
      | c :: rest => if c = '*' then some (q, rest) else none
      | [] => none

/-- One step of the fenced-code substitution: three backticks, a possibly
empty run free of backticks, three backticks; removed. -/
def ticksM (s : List Char) : Option (List Char × List Char) :=
  match chopLit (lc "```") s with
  | none => none
  | some r1 =>
    match chopLit (lc "```") (r1.dropWhile (fun c => !(c = btick))) with
    | some rest => some ([], rest)
    | none => none

/-- One step of the inline-code substitution: a backtick, a nonempty run
free of backticks, a backtick; replaced by the inner run. -/
def tickM (s : List Char) : Option (List Char × List Char) :=
  match s with
  | c :: r1 =>
    if c = btick then
      let q := r1.takeWhile (fun d => !(d = btick))
      if q.isEmpty then none
      else
        match r1.dropWhile (fun d => !(d = btick)) with
        | d :: rest => if d = btick then some (q, rest) else none
        | [] => none
    else none
  | [] => none

/-- One step of the markdown-link substitution: bracketed nonempty text
followed by a parenthesised nonempty target; replaced by the text. -/
def linkM (s : List Char) : Option (List Char × List Char) :=
  match s with
  | c :: r1 =>
    if c = '[' then
      let q := r1.takeWhile (fun d => !(d = ']'))
      if q.isEmpty then none
      else
        match r1.dropWhile (fun d => !(d = ']')) with
        | d :: r2 =>
          if d = ']' then
            match r2 with
            | e :: r3 =>
              if e = '(' then
                let u := r3.takeWhile (fun x => !(x = ')'))
                if u.isEmpty then none
                else
                  match r3.dropWhile (fun x => !(x = ')')) with
                  | x :: rest => if x = ')' then some (q, rest) else none
                  | [] => none
              else none
            | [] => none
          else none
        | [] => none
    else none
  | [] => none

/-- The bold substitution over a line. -/
def subBold (s : List Char) : List Char := scanSub boldM (s.length + 1) s

/-- The italic substitution over a line. -/
def subStar (s : List Char) : List Char := scanSub starM (s.length + 1) s

/-- The fenced-code substitution over a line. -/
def subTicks (s : List Char) : List Char := scanSub ticksM (s.length + 1) s

/-- The inline-code substitution over a line. -/
def subTick (s : List Char) : List Char := scanSub tickM (s.length + 1) s

/-- The markdown-link substitution over a line. -/
def subLink (s : List Char) : List Char := scanSub linkM (s.length + 1) s

/-- A horizontal rule: three or more dashes and nothing else. -/
def isHRule (line : List Char) : Bool :=
  decide (3 ≤ line.length) && line.all (fun c => c = '-')

/-- Clean one line, in source order: skip section headers, apply the bold,
italic, fenced-code and inline-code substitutions, skip horizontal rules,
apply the link substitution, strip, and keep the line only if nonempty. -/
def cleanLine (line : List Char) : Option (List Char) :=
  if isHeaderLine line then none
  else
    let l4 := subTick (subTicks (subStar (subBold line)))
    if isHRule l4 then none
    else
      let l6 := pyStrip (subLink l4)
      if l6.isEmpty then none else some l6

/-- One step of the substitution collapsing runs of three or more newlines
into two. -/
def nlRunM (s : List Char) : Option (List Char × List Char) :=
  match s with
  | a :: b :: c :: r =>
    if a = '\n' && b = '\n' && c = '\n' then
      some (['\n', '\n'], r.dropWhile (fun d => d = '\n'))
    else none
  | _ => none

/-- Collapse runs of three or more newlines into two. -/
def collapseNL (s : List Char) : List Char := scanSub nlRunM (s.length + 1) s

/-- clean_script_text (tts-service/utils/script_cleaner.py): a falsy input
is returned unchanged; otherwise the lines are cleaned and filtered, joined
with newlines, blank runs are collapsed, and the result is stripped.  The
source also passes None through unchanged, modelled by cleanTextOpt. -/
def clean_script_text (text : List Char) : List Char :=
  if text.isEmpty then text
  else
    let cleaned := (splitOnCh '\n' text).filterMap cleanLine
    pyStrip (collapseNL (joinNL cleaned))

/-- clean_script_text on an optional string: None is falsy and is returned
unchanged. -/
def cleanTextOpt : Option (List Char) → Option (List Char)
  | none => none
  | some t => some (clean_script_text t)

/-- Total scripted duration of the parsed scenes
(generate_professional_video, step 3). -/
def script_total_duration (scenes : List Scene) : ℚ :=
  (scenes.map Scene.duration).sum

/-- The time scale of generate_professional_video: the ratio of the
measured audio duration to the scripted total when the latter is positive,
and 1.0 otherwise. -/
def time_scale (scenes : List Scene) (total_audio_duration : ℚ) : ℚ :=
  if 0 < script_total_duration scenes then
    total_audio_duration / script_total_duration scenes
  else 1

/-- The adjusted duration of one scene: its scripted duration multiplied by
the time scale. -/
def adjusted_duration (scenes : List Scene) (total_audio_duration : ℚ) (sc : Scene) : ℚ :=
  sc.duration * time_scale scenes total_audio_duration

/-- Duration of the concatenated video before the final synchronisation
step: each scene's clip is given exactly its adjusted duration (the
per-frame durations sum to it and the explicit set_duration corrections
enforce it), and concatenation adds the clip durations. -/
def video_duration (scenes : List Scene) (total_audio_duration : ℚ) : ℚ :=
  (scenes.map (adjusted_duration scenes total_audio_duration)).sum

/-- The final synchronisation step of generate_professional_video (step 7):
when the video and audio durations differ by more than 50 milliseconds, the
video is cut to the audio duration if longer, and otherwise extended by a
freeze of its last frame whose duration is exactly the missing difference. -/
def sync_adjust (vid aud : ℚ) : ℚ :=
  if 1 / 20 < |vid - aud| then
    if aud < vid then aud else vid + (aud - vid)
  else vid

/-- The duration of the final video produced by generate_professional_video
for a given parsed scene list and measured audio duration. -/
def final_video_duration (scenes : List Scene) (total_audio_duration : ℚ) : ℚ :=
  sync_adjust (video_duration scenes total_audio_duration) total_audio_duration

/-- Observable events of a run of the TTS generation entry point. -/
inductive Ev where
  | errNoNarration
  | initModel
  | movedTo (gpu : Bool)
  | oomFallback
  | audioWritten
  | cacheCleared
deriving DecidableEq

/-- Environment of a run of generate_from_unified_script: the observable
behaviour of the external calls (GPU availability, the exception raised by
moving the model to the GPU if any, and the exception raised by the audio
synthesis call if any). -/
structure TTSEnv where
  gpu_available : Bool
  gpu_load_error : Option (List Char)
  tts_file_error : Option PyExn
deriving DecidableEq

/-- generate_from_unified_script (tts-service/generate_unified.py): extract
the narration (exceptions propagate), exit with status 1 when it is empty,
read the TTS settings, clean the text, initialise the model, select the
device with the out-of-memory fallback to the CPU as the only recovery,
synthesise the audio, and clear the GPU cache in the finally block when on
the GPU.  Returns the event trace and the outcome. -/
def generate_from_unified_script (script : List Char) (env : TTSEnv) (use_gpu : Bool) :
    List Ev × Except PyExn Unit :=
  match extract_all_narration script true with
  | .error e => ([], .error e)
  | .ok narration_text =>
    if narration_text.isEmpty then ([Ev.errNoNarration], .error (.systemExit 1))
    else
      match get_tts_settings script with
      | .error e => ([], .error e)
      | .ok _settings =>
        let _cleaned := clean_script_text narration_text
        let devRes : List Ev × Except PyExn Bool :=
          if use_gpu && env.gpu_available then
            match env.gpu_load_error with
            | none => ([Ev.movedTo true], .ok true)
            | some msg =>
              if containsSub (lc "out of memory") (lowerL msg) then
                ([Ev.oomFallback, Ev.movedTo false], .ok false)
              else ([], .error (.runtimeError msg))
          else ([Ev.movedTo false], .ok false)
        match devRes.2 with
        | .error e => (Ev.initModel :: devRes.1, .error e)
        | .ok onCuda =>
          let finEv : List Ev :=
            if onCuda && env.gpu_available then [Ev.cacheCleared] else []
          match env.tts_file_error with
          | some e => (Ev.initModel :: devRes.1 ++ finEv, .error e)
          | none => (Ev.initModel :: devRes.1 ++ [Ev.audioWritten] ++ finEv, .ok ())

/-- Result of the command-line entry point: which error output was printed
and the process exit status (none when the run finished normally). -/
structure MainRes where
  errorPrinted : Bool
  tracebackPrinted : Bool
  exitCode : Option Nat
deriving DecidableEq

/-- The command-line entry point of generate_unified.py: validate the
input paths, run generate_from_unified_script, print the error and its
traceback and exit with status 1 on any exception; a SystemExit raised
inside (the empty-narration path) is not an Exception, so it terminates the
process with its own status. -/
def main_unified (script : List Char) (env : TTSEnv) (use_gpu : Bool)
    (script_exists voice_exists : Bool) : MainRes :=
  if !script_exists then ⟨true, false, some 1⟩
  else if !voice_exists then ⟨true, false, some 1⟩
  else
    match (generate_from_unified_script script env use_gpu).2 with
    | .ok _ => ⟨false, false, none⟩
    | .error (.systemExit c) => ⟨false, false, some c⟩
    | .error _ => ⟨true, true, some 1⟩

/-! Auxiliary definitions used only to state and instantiate the verified
properties. -/

/-- Whether every speed token and every duration field of the script parses
as a float, so that neither parser raises. -/
def floats_ok (content : List Char) : Bool :=
  (sceneBlocks content).all fun b =>
    excOk (speedExc (pyStrip b.2)) && excOk (durationExc (pyStrip b.2))

/-- Append the pause marker to every string except the last one. -/
def markLast : List (List Char) → List (List Char)
  | [] => []
  | [n] => [n]
  | n :: rest => (n ++ lc "... ") :: markLast rest

/-- Narrations joined by newlines with the pause marker appended to every
one except the last: the stated behaviour of extract_all_narration on
consecutively numbered scenes. -/
def pauseJoin (ns : List (List Char)) : List Char := joinNL (markLast ns)

/-- No two adjacent newlines. -/
def noDbl : List Char → Bool
  | [] => true
  | [_] => true
  | a :: b :: rest => !(a = '\n' && b = '\n') && noDbl (b :: rest)

/-- A two-scene sample script. -/
def sampleVid : List Char :=
  lc "[scene 1]\nnarration: |\n  One.\nduration: \"2s\"\n---\n[scene 2]\nnarration: |\n  Two.\nduration: \"3s\""

/-- The video-service parse of the sample script. -/
def sampleVidScenes : List Scene :=
  (video_parse_unified_script sampleVid).toOption.getD []

/-- The TTS-service parse of the sample script. -/
def sampleTtsScenes : List TTSScene :=
  (tts_parse_unified_script sampleVid).toOption.getD []

/-- A sample script whose single scene has duration zero. -/
def sampleZero : List Char := lc "[scene 1]\nduration: \"0s\""

/-- The video-service parse of the zero-duration sample. -/
def sampleZeroScenes : List Scene :=
  (video_parse_unified_script sampleZero).toOption.getD []

/-- A script whose duration field is not a float literal. -/
def badDurScript : List Char := lc "[scene 1]\nduration: \"oops\""

/-- A script whose speed token is a lone dot. -/
def badSpeedScript : List Char := lc "[scene 1]\nspeed: ."

/-- A script with no scene blocks. -/
def noSceneScript : List Char := lc "plain text with no scene headers"

/-- A default-only scene built from an empty block by the TTS parser. -/
def defBlockScene : TTSScene :=
  (ttsSceneOfBlock (1, [])).toOption.getD ⟨0, [], ⟨0, [], []⟩, []⟩

/-- A default-only scene built from an empty block by the video parser. -/
def defBlockSceneV : Scene :=
  (videoSceneOfBlock (1, [])).toOption.getD
    ⟨0, [], [], 0, ⟨0, [], []⟩, ⟨[], [], [], []⟩, [], none, none, none⟩

/-- An environment in which the audio synthesis call raises. -/
def envBoom : TTSEnv := ⟨false, none, some (.otherError (lc "boom"))⟩

/-- An environment in which moving the model to the GPU raises an
out-of-memory RuntimeError. -/
def envOOM : TTSEnv := ⟨true, some (lc "CUDA out of memory"), none⟩

/-- An environment in which moving the model to the GPU raises a
RuntimeError that is not an out-of-memory error. -/
def envBad : TTSEnv := ⟨true, some (lc "device-side assert"), none⟩

/-! The verified properties. -/

/-- C1: for every parsed scene list whose total scripted duration is
positive, each scene's adjusted duration is its scripted duration times the
ratio of the audio duration to the scripted total, so the adjusted
durations sum exactly to the measured audio duration. -/
theorem c1_rescaled_durations_sum_to_audio (content : List Char) (scenes : List Scene)
    (aud : ℚ) (hp : video_parse_unified_script content = .ok scenes)
    (hpos : 0 < script_total_duration scenes) :
    (∀ sc ∈ scenes,
        adjusted_duration scenes aud sc =
          sc.duration * (aud / script_total_duration scenes)) ∧
    (scenes.map (adjusted_duration scenes aud)).sum = aud := by
  have hne : script_total_duration scenes ≠ 0 := ne_of_gt hpos
  have hts : time_scale scenes aud = aud / script_total_duration scenes := if_pos hpos
  constructor
  · intro sc _
    rw [adjusted_duration, hts]
  · show (scenes.map fun sc => sc.duration * time_scale scenes aud).sum = aud
    simp only [hts]
    rw [List.sum_map_mul_right scenes Scene.duration (aud / script_total_duration scenes)]
    rw [show (scenes.map Scene.duration).sum = script_total_duration scenes from rfl]
    rw [mul_comm, div_mul_cancel₀ _ hne]

/-- Witness for C1 at the two-scene sample script with audio duration 4. -/
theorem c1_rescaled_durations_sum_to_audio_witness :
    video_parse_unified_script sampleVid = .ok sampleVidScenes ∧
    0 < script_total_duration sampleVidScenes ∧
    (sampleVidScenes.map (adjusted_duration sampleVidScenes 4)).sum = 4 := by
  have hpos : 0 < script_total_duration sampleVidScenes := by
    rw [show script_total_duration sampleVidScenes = (2 : ℚ) + (3 + 0) from rfl]
    norm_num
  exact ⟨rfl, hpos, (c1_rescaled_durations_sum_to_audio sampleVid sampleVidScenes 4 rfl hpos).2⟩

/-- C10: when the parsed script's total scene duration is zero, the time
scale is set to 1 instead of dividing by zero, so every scene's adjusted
duration is its unscaled scripted duration. -/
theorem c10_zero_total_duration_scale_one (scenes : List Scene) (aud : ℚ)
    (h : script_total_duration scenes = 0) :
    time_scale scenes aud = 1 ∧
    ∀ sc ∈ scenes, adjusted_duration scenes aud sc = sc.duration := by
  have hnp : ¬ 0 < script_total_duration scenes := by
    rw [h]
    exact lt_irrefl 0
  refine ⟨if_neg hnp, fun sc _ => ?_⟩
  rw [adjusted_duration, time_scale, if_neg hnp, mul_one]

/-- Witness for C10 at the zero-duration sample script with audio duration 7. -/
theorem c10_zero_total_duration_scale_one_witness :
    script_total_duration sampleZeroScenes = 0 ∧
    time_scale sampleZeroScenes 7 = 1 ∧
    ∀ sc ∈ sampleZeroScenes, adjusted_duration sampleZeroScenes 7 sc = sc.duration := by
  have h0 : script_total_duration sampleZeroScenes = 0 := by
    rw [show script_total_duration sampleZeroScenes = ((0 : ℚ) + 0) from rfl]
    norm_num
  exact ⟨h0, (c10_zero_total_duration_scale_one sampleZeroScenes 7 h0).1,
         (c10_zero_total_duration_scale_one sampleZeroScenes 7 h0).2⟩

/-- C4: after the synchronisation adjustment (cutting the video or
extending it with its last frame), the final video duration differs from
the audio duration by at most 0.05 seconds, for every non-empty scene list
and positive audio duration. -/
theorem c4_sync_within_fifty_ms (scenes : List Scene) (aud : ℚ)
    (hne : scenes ≠ []) (hpos : 0 < aud) :
    |final_video_duration scenes aud - aud| ≤ 1 / 20 := by
  unfold final_video_duration sync_adjust
  split_ifs with h1 h2
  · rw [sub_self, abs_zero]
    norm_num
  · have he : video_duration scenes aud + (aud - video_duration scenes aud) = aud := by ring
    rw [he, sub_self, abs_zero]
    norm_num
  · exact le_of_not_lt h1

/-- Witness for C4 at the two-scene sample script with audio duration 3. -/
theorem c4_sync_within_fifty_ms_witness :
    sampleVidScenes ≠ [] ∧ (0 : ℚ) < 3 ∧
    |final_video_duration sampleVidScenes 3 - 3| ≤ 1 / 20 := by
  have hne : sampleVidScenes ≠ [] := by
    have hl : sampleVidScenes.length = 2 := rfl
    intro h
    rw [h] at hl
    simp at hl
  exact ⟨hne, by norm_num, c4_sync_within_fifty_ms sampleVidScenes 3 hne (by norm_num)⟩

/-- Projections through mapExc: if per-element success values project like
the inputs, the output list projects to the input list. -/
theorem mapExc_ok_map {α β γ : Type} {f : α → Except PyExn β} {g : β → γ} {h : α → γ}
    (H : ∀ a b, f a = .ok b → g b = h a) :
    ∀ {l : List α} {ys : List β}, mapExc f l = .ok ys → ys.map g = l.map h := by
  intro l
  induction l with
  | nil =>
    intro ys hy
    simp only [mapExc, Except.ok.injEq] at hy
    subst hy
    rfl
  | cons a t ih =>
    intro ys hy
    simp only [mapExc] at hy
    cases hfa : f a with
    | error e => rw [hfa] at hy; cases hy
    | ok b =>
      rw [hfa] at hy
      cases hm : mapExc f t with
      | error e => rw [hm] at hy; cases hy
      | ok bs =>
        rw [hm] at hy
        simp only [Except.ok.injEq] at hy
        subst hy
        simp only [List.map_cons, H a b hfa, ih hm]

/-- Related refinements through mapExc: if every success of the second
computation is matched by a related success of the first, success lists of
the second are matched by pointwise related success lists of the first. -/
theorem mapExc_rel {α β γ : Type} {f1 : α → Except PyExn β} {f2 : α → Except PyExn γ}
    {R : β → γ → Prop}
    (H : ∀ a c, f2 a = .ok c → ∃ b, f1 a = .ok b ∧ R b c) :
    ∀ {l : List α} {ys : List γ}, mapExc f2 l = .ok ys →
      ∃ xs, mapExc f1 l = .ok xs ∧ List.Forall₂ R xs ys := by
  intro l
  induction l with
  | nil =>
    intro ys hy
    simp only [mapExc, Except.ok.injEq] at hy
    subst hy
    exact ⟨[], rfl, List.Forall₂.nil⟩
  | cons a t ih =>
    intro ys hy
    simp only [mapExc] at hy
    cases hfa : f2 a with
    | error e => rw [hfa] at hy; cases hy
    | ok c =>
      rw [hfa] at hy
      cases hm : mapExc f2 t with
      | error e => rw [hm] at hy; cases hy
      | ok cs =>
        rw [hm] at hy
        simp only [Except.ok.injEq] at hy
        subst hy
        obtain ⟨b, hb, hR⟩ := H a c hfa
        obtain ⟨bs, hbs, hRs⟩ := ih hm
        refine ⟨b :: bs, ?_, List.Forall₂.cons hR hRs⟩
        simp only [mapExc, hb, hbs]

/-- Success of mapExc from elementwise success. -/
theorem mapExc_isOk {α β : Type} {f : α → Except PyExn β} :
    ∀ {l : List α}, (∀ a ∈ l, excOk (f a) = true) → excOk (mapExc f l) = true := by
  intro l
  induction l with
  | nil => intro _; rfl
  | cons a t ih =>
    intro hall
    have ha := hall a (List.mem_cons_self a t)
    simp only [mapExc]
    cases hfa : f a with
    | error e => rw [hfa] at ha; cases ha
    | ok b =>
      have ht := ih (fun x hx => hall x (List.mem_cons_of_mem a hx))
      cases hm : mapExc f t with
      | error e => rw [hm] at ht; cases ht
      | ok bs => rfl

/-- Pointwise access to a Forall₂ relation. -/
theorem forall2_get {α β : Type} {R : α → β → Prop} :
    ∀ {xs : List α} {ys : List β}, List.Forall₂ R xs ys →
      ∀ i (h1 : i < xs.length) (h2 : i < ys.length),
        R (xs.get ⟨i, h1⟩) (ys.get ⟨i, h2⟩) := by
  intro xs ys hf
  induction hf with
  | nil => intro i h1 _; exact absurd h1 (Nat.not_lt_zero i)
  | cons ha _ ih =>
    intro i h1 h2
    cases i with
    | zero => exact ha
    | succ n => exact ih n (Nat.lt_of_succ_lt_succ h1) (Nat.lt_of_succ_lt_succ h2)

/-- The scene number of a video-parser scene is the number of its block. -/
theorem videoSceneOfBlock_number (b : Nat × List Char) (sc : Scene)
    (h : videoSceneOfBlock b = .ok sc) : sc.scene_number = b.1 := by
  simp only [videoSceneOfBlock] at h
  cases hd : durationExc (pyStrip b.2) with
  | error e => rw [hd] at h; cases h
  | ok dur =>
    rw [hd] at h
    cases hs : speedExc (pyStrip b.2) with
    | error e => rw [hs] at h; cases h
    | ok sp =>
      rw [hs] at h
      simp only [Except.ok.injEq] at h
      subst h
      rfl

/-- The scene number of a TTS-parser scene is the number of its block. -/
theorem ttsSceneOfBlock_number (b : Nat × List Char) (sc : TTSScene)
    (h : ttsSceneOfBlock b = .ok sc) : sc.scene_number = b.1 := by
  simp only [ttsSceneOfBlock] at h
  cases hs : speedExc (pyStrip b.2) with
  | error e => rw [hs] at h; cases h
  | ok sp =>
    rw [hs] at h
    simp only [Except.ok.injEq] at h
    subst h
    rfl

/-- C3: whenever a parser returns a scene list, it returns exactly one
scene per scene block, in the order the blocks occur in the text, and each
scene's number is the integer of its block header; this holds for both the
video-service parser and the TTS-service parser.  A block's content ends at
the next line starting with three dashes, the next line starting with a
scene header, or the end of input (the sceneBlocks definition). -/
theorem c3_one_scene_per_block_in_order (content : List Char)
    (scenes : List Scene) (tscenes : List TTSScene)
    (hv : video_parse_unified_script content = .ok scenes)
    (ht : tts_parse_unified_script content = .ok tscenes) :
    scenes.map Scene.scene_number = (sceneBlocks content).map Prod.fst ∧
    tscenes.map TTSScene.scene_number = (sceneBlocks content).map Prod.fst ∧
    scenes.length = (sceneBlocks content).length ∧
    tscenes.length = (sceneBlocks content).length := by
  have h1 : scenes.map Scene.scene_number = (sceneBlocks content).map Prod.fst :=
    mapExc_ok_map videoSceneOfBlock_number hv
  have h2 : tscenes.map TTSScene.scene_number = (sceneBlocks content).map Prod.fst :=
    mapExc_ok_map ttsSceneOfBlock_number ht
  refine ⟨h1, h2, ?_, ?_⟩
  · have := congrArg List.length h1
    simpa using this
  · have := congrArg List.length h2
    simpa using this

/-- Witness for C3 at the two-scene sample script. -/
theorem c3_one_scene_per_block_in_order_witness :
    video_parse_unified_script sampleVid = .ok sampleVidScenes ∧
    tts_parse_unified_script sampleVid = .ok sampleTtsScenes ∧
    sampleVidScenes.map Scene.scene_number = (sceneBlocks sampleVid).map Prod.fst ∧
    sampleTtsScenes.map TTSScene.scene_number = (sceneBlocks sampleVid).map Prod.fst :=
  ⟨rfl, rfl,
   (c3_one_scene_per_block_in_order sampleVid sampleVidScenes sampleTtsScenes rfl rfl).1,
   (c3_one_scene_per_block_in_order sampleVid sampleVidScenes sampleTtsScenes rfl rfl).2.1⟩

/-- Every success of the video-parser scene builder is matched by a success
of the TTS-parser scene builder with the same scene number and narration:
both builders extract these two fields with character-identical code. -/
theorem blockAgree (b : Nat × List Char) (v : Scene)
    (h : videoSceneOfBlock b = .ok v) :
    ∃ t, ttsSceneOfBlock b = .ok t ∧
      t.scene_number = v.scene_number ∧ t.narration = v.narration := by
  simp only [videoSceneOfBlock] at h
  cases hd : durationExc (pyStrip b.2) with
  | error e => rw [hd] at h; cases h
  | ok dur =>
    rw [hd] at h
    cases hs : speedExc (pyStrip b.2) with
    | error e => rw [hs] at h; cases h
    | ok sp =>
      rw [hs] at h
      simp only [Except.ok.injEq] at h
      subst h
      refine ⟨⟨b.1, narrationOf (pyStrip b.2),
              ⟨sp, toneOf (pyStrip b.2),
               if (searchWith matchPausesItem (pyStrip b.2)).isSome then
                 dashQuotedAll (pyStrip b.2)
               else []⟩,
              durationStrOf (pyStrip b.2)⟩, ?_, rfl, rfl⟩
      simp only [ttsSceneOfBlock, hs]

/-- C2 counterexample: on a script whose duration field is not a float
literal, the TTS-service parser returns a scene list while the
video-service parser raises, so the two parsers do not return lists of
equal length for every script text. -/
theorem c2_counterexample_video_parser_raises :
    excOk (tts_parse_unified_script badDurScript) = true ∧
    excOk (video_parse_unified_script badDurScript) = false :=
  ⟨rfl, rfl⟩

/-- C2 amended: whenever the video-service parser returns a scene list, the
TTS-service parser also returns one of the same length whose elements have
the same scene numbers and the same narration texts. -/
theorem c2_amended_parsers_agree_when_video_returns (content : List Char)
    (scenes : List Scene)
    (hv : video_parse_unified_script content = .ok scenes) :
    ∃ tscenes, tts_parse_unified_script content = .ok tscenes ∧
      tscenes.length = scenes.length ∧
      ∀ i (h1 : i < tscenes.length) (h2 : i < scenes.length),
        (tscenes.get ⟨i, h1⟩).scene_number = (scenes.get ⟨i, h2⟩).scene_number ∧
        (tscenes.get ⟨i, h1⟩).narration = (scenes.get ⟨i, h2⟩).narration := by
  obtain ⟨xs, hxs, hR⟩ := mapExc_rel blockAgree hv
  exact ⟨xs, hxs, hR.length_eq, fun i h1 h2 => forall2_get hR i h1 h2⟩

/-- Witness for the amended C2 at the two-scene sample script. -/
theorem c2_amended_parsers_agree_when_video_returns_witness :
    video_parse_unified_script sampleVid = .ok sampleVidScenes ∧
    ∃ tscenes, tts_parse_unified_script sampleVid = .ok tscenes ∧
      tscenes.length = sampleVidScenes.length ∧
      ∀ i (h1 : i < tscenes.length) (h2 : i < sampleVidScenes.length),
        (tscenes.get ⟨i, h1⟩).scene_number = (sampleVidScenes.get ⟨i, h2⟩).scene_number ∧
        (tscenes.get ⟨i, h1⟩).narration = (sampleVidScenes.get ⟨i, h2⟩).narration :=
  ⟨rfl, c2_amended_parsers_agree_when_video_returns sampleVid sampleVidScenes rfl⟩

/-- The TTS-parser scene builder succeeds when the speed token is
well-formed. -/
theorem ttsSceneOfBlock_isOk (b : Nat × List Char)
    (h : excOk (speedExc (pyStrip b.2)) = true) :
    excOk (ttsSceneOfBlock b) = true := by
  simp only [ttsSceneOfBlock]
  cases hs : speedExc (pyStrip b.2) with
  | error e => rw [hs] at h; cases h
  | ok sp => rfl

/-- The video-parser scene builder succeeds when the speed token and the
duration field are well-formed. -/
theorem videoSceneOfBlock_isOk (b : Nat × List Char)
    (h1 : excOk (speedExc (pyStrip b.2)) = true)
    (h2 : excOk (durationExc (pyStrip b.2)) = true) :
    excOk (videoSceneOfBlock b) = true := by
  simp only [videoSceneOfBlock]
  cases hd : durationExc (pyStrip b.2) with
  | error e => rw [hd] at h2; cases h2
  | ok dur =>
    cases hs : speedExc (pyStrip b.2) with
    | error e => rw [hs] at h1; cases h1
    | ok sp => rfl

/-- Default substitution of the TTS-parser scene builder for missing or
unmatched fields. -/
theorem ttsSceneOfBlock_defaults (b : Nat × List Char) (sc : TTSScene)
    (h : ttsSceneOfBlock b = .ok sc) :
    (speedTokOf (pyStrip b.2) = none → sc.tts_settings.speed = 105 / 100) ∧
    (quotedOf (lc "tone:") (pyStrip b.2) = none → sc.tts_settings.tone = defaultTone) ∧
    (quotedOf (lc "duration:") (pyStrip b.2) = none → sc.duration = lc "5s") ∧
    (searchWith (matchPipeBlock (lc "narration:") narrStop) (pyStrip b.2) = none →
        sc.narration = []) := by
  simp only [ttsSceneOfBlock] at h
  cases hs : speedExc (pyStrip b.2) with
  | error e => rw [hs] at h; cases h
  | ok sp =>
    rw [hs] at h
    simp only [Except.ok.injEq] at h
    subst h
    refine ⟨?_, ?_, ?_, ?_⟩
    · intro htok
      simp only [speedExc, htok] at hs
      simp only [Except.ok.injEq] at hs
      exact hs.symm
    · intro hq
      simp only [toneOf, hq, Option.getD]
    · intro hq
      simp only [durationStrOf, hq, Option.getD]
    · intro hq
      simp only [narrationOf, hq]

/-- Default substitution of the video-parser scene builder for missing or
unmatched fields; a missing duration parses as exactly 5 seconds. -/
theorem videoSceneOfBlock_defaults (b : Nat × List Char) (sc : Scene)
    (h : videoSceneOfBlock b = .ok sc) :
    (speedTokOf (pyStrip b.2) = none → sc.tts_settings.speed = 105 / 100) ∧
    (quotedOf (lc "tone:") (pyStrip b.2) = none → sc.tts_settings.tone = defaultTone) ∧
    (quotedOf (lc "duration:") (pyStrip b.2) = none → sc.duration = 5) ∧
    (searchWith (matchPipeBlock (lc "narration:") narrStop) (pyStrip b.2) = none →
        sc.narration = []) := by
  simp only [videoSceneOfBlock] at h
  cases hd : durationExc (pyStrip b.2) with
  | error e => rw [hd] at h; cases h
  | ok dur =>
    rw [hd] at h
    cases hs : speedExc (pyStrip b.2) with
    | error e => rw [hs] at h; cases h
    | ok sp =>
      rw [hs] at h
      simp only [Except.ok.injEq] at h
      subst h
      refine ⟨?_, ?_, ?_, ?_⟩
      · intro htok
        simp only [speedExc, htok] at hs
        simp only [Except.ok.injEq] at hs
        exact hs.symm
      · intro hq
        simp only [toneOf, hq, Option.getD]
      · intro hq
        simp only [durationExc, durationStrOf, hq, Option.getD] at hd
        rw [show parse_duration (lc "5s") = Except.ok (5 : ℚ) from rfl] at hd
        simp only [Except.ok.injEq] at hd
        exact hd.symm
      · intro hq
        simp only [narrationOf, hq]

/-- C5 counterexample: on a script whose speed token is a lone dot, both
parsers raise a ValueError from float conversion, so the parsers do not
accept every input without raising. -/
theorem c5_counterexample_parsers_raise :
    excOk (tts_parse_unified_script badSpeedScript) = false ∧
    excOk (video_parse_unified_script badSpeedScript) = false :=
  ⟨rfl, rfl⟩

/-- C5 amended: the parsers perform no schema validation, and on every
input whose speed tokens and duration fields parse as floats they return a
scene list without raising; the documented defaults (speed 1.05, the
default tone, duration the string 5s respectively 5.0 seconds, empty
narration) are substituted for missing or unmatched fields. -/
theorem c5_amended_no_raise_and_defaults :
    (∀ content, floats_ok content = true →
        excOk (tts_parse_unified_script content) = true ∧
        excOk (video_parse_unified_script content) = true) ∧
    (∀ b : Nat × List Char, ∀ sc : TTSScene, ttsSceneOfBlock b = .ok sc →
        (speedTokOf (pyStrip b.2) = none → sc.tts_settings.speed = 105 / 100) ∧
        (quotedOf (lc "tone:") (pyStrip b.2) = none → sc.tts_settings.tone = defaultTone) ∧
        (quotedOf (lc "duration:") (pyStrip b.2) = none → sc.duration = lc "5s") ∧
        (searchWith (matchPipeBlock (lc "narration:") narrStop) (pyStrip b.2) = none →
            sc.narration = [])) ∧
    (∀ b : Nat × List Char, ∀ sc : Scene, videoSceneOfBlock b = .ok sc →
        (speedTokOf (pyStrip b.2) = none → sc.tts_settings.speed = 105 / 100) ∧
        (quotedOf (lc "tone:") (pyStrip b.2) = none → sc.tts_settings.tone = defaultTone) ∧
        (quotedOf (lc "duration:") (pyStrip b.2) = none → sc.duration = 5) ∧
        (searchWith (matchPipeBlock (lc "narration:") narrStop) (pyStrip b.2) = none →
            sc.narration = [])) := by
  refine ⟨?_, fun b sc h => ttsSceneOfBlock_defaults b sc h,
          fun b sc h => videoSceneOfBlock_defaults b sc h⟩
  intro content hok
  have hall := List.all_eq_true.1 hok
  constructor
  · exact mapExc_isOk (fun b hb =>
      ttsSceneOfBlock_isOk b (Bool.and_eq_true_iff.1 (hall b hb)).1)
  · exact mapExc_isOk (fun b hb =>
      videoSceneOfBlock_isOk b (Bool.and_eq_true_iff.1 (hall b hb)).1
        (Bool.and_eq_true_iff.1 (hall b hb)).2)

/-- Witness for the amended C5 at a script with one empty scene block. -/
theorem c5_amended_no_raise_and_defaults_witness :
    floats_ok (lc "[scene 1]") = true ∧
    excOk (tts_parse_unified_script (lc "[scene 1]")) = true ∧
    excOk (video_parse_unified_script (lc "[scene 1]")) = true ∧
    ttsSceneOfBlock (1, []) = .ok defBlockScene ∧
    defBlockScene.tts_settings.speed = 105 / 100 ∧
    defBlockScene.tts_settings.tone = defaultTone ∧
    defBlockScene.duration = lc "5s" ∧
    defBlockScene.narration = [] ∧
    videoSceneOfBlock (1, []) = .ok defBlockSceneV ∧
    defBlockSceneV.duration = 5 := by
  have h := c5_amended_no_raise_and_defaults
  have hok := h.1 (lc "[scene 1]") rfl
  have ht := h.2.1 (1, []) defBlockScene rfl
  have hv := h.2.2 (1, []) defBlockSceneV rfl
  exact ⟨rfl, hok.1, hok.2, rfl, ht.1 rfl, ht.2.1 rfl, ht.2.2.1 rfl, ht.2.2.2 rfl,
         rfl, hv.2.2.1 rfl⟩

/-- When narration extraction succeeds, reading the TTS settings also
succeeds (both re-parse the same script). -/
theorem get_tts_settings_ok_of_extract_ok (content : List Char) (n : List Char)
    (h : extract_all_narration content true = .ok n) :
    ∃ st, get_tts_settings content = .ok st := by
  simp only [extract_all_narration] at h
  simp only [get_tts_settings]
  cases hp : tts_parse_unified_script content with
  | error e => rw [hp] at h; cases h
  | ok scenes =>
    cases scenes with
    | nil => exact ⟨_, rfl⟩
    | cons s0 t => exact ⟨_, rfl⟩

/-- C7: when no narration can be extracted (in particular when the script
has no scene blocks), generate_from_unified_script prints the error and
exits with status 1 before initialising the TTS model, so no audio file is
produced. -/
theorem c7_empty_narration_exits_before_model (script : List Char) (env : TTSEnv)
    (use_gpu : Bool) :
    (sceneBlocks script = [] → extract_all_narration script true = .ok []) ∧
    (extract_all_narration script true = .ok [] →
      (generate_from_unified_script script env use_gpu).2 = .error (.systemExit 1) ∧
      Ev.errNoNarration ∈ (generate_from_unified_script script env use_gpu).1 ∧
      Ev.initModel ∉ (generate_from_unified_script script env use_gpu).1 ∧
      Ev.audioWritten ∉ (generate_from_unified_script script env use_gpu).1) := by
  constructor
  · intro h
    simp only [extract_all_narration, tts_parse_unified_script, h, mapExc]
  · intro hE
    have hg : generate_from_unified_script script env use_gpu =
        ([Ev.errNoNarration], .error (.systemExit 1)) := by
      simp only [generate_from_unified_script, hE, List.isEmpty_nil, if_true]
    rw [hg]
    refine ⟨rfl, List.mem_singleton.2 rfl, ?_, ?_⟩
    · intro hm
      simp at hm
    · intro hm
      simp at hm

/-- Witness for C7 at a script with no scene blocks. -/
theorem c7_empty_narration_exits_before_model_witness :
    extract_all_narration noSceneScript true = .ok [] ∧
    (generate_from_unified_script noSceneScript envBoom false).2 =
      .error (.systemExit 1) ∧
    Ev.initModel ∉ (generate_from_unified_script noSceneScript envBoom false).1 ∧
    Ev.audioWritten ∉ (generate_from_unified_script noSceneScript envBoom false).1 := by
  have h := c7_empty_narration_exits_before_model noSceneScript envBoom false
  have hE : extract_all_narration noSceneScript true = .ok [] := h.1 rfl
  exact ⟨hE, (h.2 hE).1, (h.2 hE).2.2.1, (h.2 hE).2.2.2⟩

/-- C6: every failure of generate_from_unified_script is handled only at
the command-line entry point, which prints the error and its traceback and
exits with status 1; the only intermediate recovery is the fallback to the
CPU on a GPU out-of-memory error, and any other error raised while moving
the model to the GPU propagates. -/
theorem c6_errors_propagate_to_entry (script : List Char) (env : TTSEnv)
    (use_gpu : Bool) :
    (∀ e, (generate_from_unified_script script env use_gpu).2 = .error e →
        (∀ c, e ≠ .systemExit c) →
        main_unified script env use_gpu true true = ⟨true, true, some 1⟩) ∧
    (∀ msg, env.gpu_load_error = some msg →
        containsSub (lc "out of memory") (lowerL msg) = true →
        (generate_from_unified_script script env true).2 =
          (generate_from_unified_script script env false).2) ∧
    (∀ msg, env.gpu_load_error = some msg →
        containsSub (lc "out of memory") (lowerL msg) = false →
        use_gpu = true → env.gpu_available = true →
        (∃ n, extract_all_narration script true = .ok n ∧ n ≠ []) →
        (generate_from_unified_script script env use_gpu).2 =
          .error (.runtimeError msg)) := by
  refine ⟨?_, ?_, ?_⟩
  · intro e hg hne
    cases e with
    | systemExit c => exact absurd rfl (hne c)
    | valueError m => simp [main_unified, hg]
    | runtimeError m => simp [main_unified, hg]
    | otherError m => simp [main_unified, hg]
  · intro msg hm hoom
    simp only [generate_from_unified_script]
    cases hX : extract_all_narration script true with
    | error e => rfl
    | ok n =>
      cases hn : n.isEmpty with
      | true => simp only [hn, if_true]
      | false =>
        simp only [hn, Bool.false_eq_true, if_false]
        cases hgts : get_tts_settings script with
        | error e => rfl
        | ok st =>
          cases hga : env.gpu_available with
          | false => simp [hm, hga]
          | true =>
            simp only [hm, hga, hoom, Bool.and_self, Bool.and_false, Bool.and_true,
                       if_true, Bool.false_eq_true, if_false]
            cases env.tts_file_error <;> rfl
  · intro msg hm hoom hug hga hex
    obtain ⟨n, hE, hne⟩ := hex
    obtain ⟨st, hgts⟩ := get_tts_settings_ok_of_extract_ok script n hE
    have hn : n.isEmpty = false := List.isEmpty_eq_false.2 hne
    subst hug
    simp only [generate_from_unified_script, hE, hn, Bool.false_eq_true, if_false,
               hgts, hga, hm, hoom, Bool.and_self, if_true]

/-- Witness for C6: a synthesis failure propagating to an exit with status
1, an out-of-memory GPU failure recovered by the CPU fallback, and a
non-out-of-memory GPU failure propagating. -/
theorem c6_errors_propagate_to_entry_witness :
    (generate_from_unified_script sampleVid envBoom false).2 =
      .error (.otherError (lc "boom")) ∧
    main_unified sampleVid envBoom false true true = ⟨true, true, some 1⟩ ∧
    (generate_from_unified_script sampleVid envOOM true).2 =
      (generate_from_unified_script sampleVid envOOM false).2 ∧
    (generate_from_unified_script sampleVid envBad true).2 =
      .error (.runtimeError (lc "device-side assert")) := by
  have h1 := (c6_errors_propagate_to_entry sampleVid envBoom false).1
    (.otherError (lc "boom")) rfl (fun c hc => by cases hc)
  have h2 := (c6_errors_propagate_to_entry sampleVid envOOM true).2.1
    (lc "CUDA out of memory") rfl rfl
  have h3 := (c6_errors_propagate_to_entry sampleVid envBad true).2.2
    (lc "device-side assert") rfl rfl rfl rfl
    ⟨lc "One.... \nTwo.", rfl, by decide⟩
  exact ⟨rfl, h1, h2, h3⟩

/-- Appending the pause marker to all scenes but the last agrees with the
source's comparison of each scene number against the number of scenes, for
consecutively numbered scenes starting at any offset. -/
theorem markLast_shift (l : List TTSScene) (N : Nat) :
    ∀ k, k + l.length = N →
    (∀ i (h : i < l.length), (l.get ⟨i, h⟩).scene_number = k + i + 1) →
    (l.map fun sc =>
        if sc.scene_number < N then sc.narration ++ lc "... " else sc.narration)
      = markLast (l.map TTSScene.narration) := by
  induction l with
  | nil => intro k _ _; rfl
  | cons a t ih =>
    intro k hN hnum
    have ha : a.scene_number = k + 1 := by
      have h0 := hnum 0 (Nat.succ_pos t.length)
      simpa using h0
    cases t with
    | nil =>
      have hnlt : ¬ a.scene_number < N := by
        rw [ha]
        simp only [List.length_cons, List.length_nil] at hN
        omega
      simp only [List.map_cons, List.map_nil, markLast, if_neg hnlt]
    | cons b t2 =>
      have hlt : a.scene_number < N := by
        rw [ha]
        simp only [List.length_cons] at hN
        omega
      have htail := ih (k + 1)
        (by simp only [List.length_cons] at hN ⊢; omega)
        (by
          intro i h
          have := hnum (i + 1) (by simpa using Nat.succ_lt_succ h)
          simpa [Nat.add_assoc, Nat.add_comm, Nat.add_left_comm] using this)
      simp only [List.map_cons] at htail ⊢
      rw [show markLast (a.narration :: b.narration :: List.map TTSScene.narration t2)
            = (a.narration ++ lc "... ") :: markLast (b.narration :: List.map TTSScene.narration t2)
          from rfl]
      rw [if_pos hlt, htail]

/-- C8: for every script whose parsed scenes are numbered consecutively
from 1, extract_all_narration with joined scenes returns the narrations
joined by newlines with the pause marker appended to every narration except
the last one's. -/
theorem c8_extract_joins_with_pauses (content : List Char) (scenes : List TTSScene)
    (hp : tts_parse_unified_script content = .ok scenes)
    (hnum : ∀ i (h : i < scenes.length), (scenes.get ⟨i, h⟩).scene_number = i + 1) :
    extract_all_narration content true =
      .ok (pauseJoin (scenes.map TTSScene.narration)) := by
  simp only [extract_all_narration, hp]
  cases scenes with
  | nil => rfl
  | cons s0 t =>
    simp only [if_true, pauseJoin, Except.ok.injEq]
    congr 1
    exact markLast_shift (s0 :: t) (s0 :: t).length 0 (Nat.zero_add _)
      (fun i h => by simpa using hnum i h)

/-- Witness for C8 at the two-scene sample script. -/
theorem c8_extract_joins_with_pauses_witness :
    tts_parse_unified_script sampleVid = .ok sampleTtsScenes ∧
    (∀ i (h : i < sampleTtsScenes.length),
        (sampleTtsScenes.get ⟨i, h⟩).scene_number = i + 1) ∧
    extract_all_narration sampleVid true =
      .ok (pauseJoin (sampleTtsScenes.map TTSScene.narration)) := by
  have hnum : ∀ i (h : i < sampleTtsScenes.length),
      (sampleTtsScenes.get ⟨i, h⟩).scene_number = i + 1 := by
    intro i h
    have hl : sampleTtsScenes.length = 2 := rfl
    rw [hl] at h
    interval_cases i <;> rfl
  exact ⟨rfl, hnum, c8_extract_joins_with_pauses sampleVid sampleTtsScenes rfl hnum⟩

/-- Members of a takeWhile segment are members of the list. -/
theorem tw_mem {p : Char → Bool} {l : List Char} {c : Char}
    (h : c ∈ List.takeWhile p l) : c ∈ l :=
  (List.takeWhile_sublist p).subset h

/-- Members of a dropWhile segment are members of the list. -/
theorem dw_mem {p : Char → Bool} {l : List Char} {c : Char}
    (h : c ∈ List.dropWhile p l) : c ∈ l :=
  (List.dropWhile_sublist p).subset h

/-- Members of the remainder of a literal match are members of the input. -/
theorem chopLit_mem : ∀ {p s r : List Char}, chopLit p s = some r →
    ∀ c, c ∈ r → c ∈ s := by
  intro p
  induction p with
  | nil =>
    intro s r h
    simp only [chopLit, Option.some.injEq] at h
    subst h
    exact fun c hc => hc
  | cons x xs ih =>
    intro s r h
    cases s with
    | nil => cases h
    | cons y ys =>
      simp only [chopLit] at h
      split at h
      · exact fun c hc => List.mem_cons_of_mem y (ih h c hc)
      · cases h

/-- Members of a stripped list are members of the list. -/
theorem pyStrip_mem {s : List Char} : ∀ c ∈ pyStrip s, c ∈ s := by
  intro c hc
  unfold pyStrip at hc
  rw [List.mem_reverse] at hc
  have h1 := dw_mem hc
  rw [List.mem_reverse] at h1
  exact dw_mem h1

/-- Characters of a scanSub result are characters of the input, provided
the matcher only emits characters of its input. -/
theorem scanSub_subset {m : List Char → Option (List Char × List Char)}
    (H : ∀ s out r, m s = some (out, r) → (∀ c ∈ out, c ∈ s) ∧ (∀ c ∈ r, c ∈ s)) :
    ∀ fuel s, ∀ c ∈ scanSub m fuel s, c ∈ s := by
  intro fuel
  induction fuel with
  | zero => intro s c hc; simpa [scanSub] using hc
  | succ n ih =>
    intro s c hc
    cases s with
    | nil => simpa [scanSub] using hc
    | cons a rest =>
      simp only [scanSub] at hc
      cases hm : m (a :: rest) with
      | some p =>
        rw [hm] at hc
        have hm' : m (a :: rest) = some (p.1, p.2) := by rw [hm]
        rcases List.mem_append.1 hc with h1 | h2
        · exact (H _ _ _ hm').1 c h1
        · exact (H _ _ _ hm').2 c (ih _ c h2)
      | none =>
        rw [hm] at hc
        rcases List.mem_cons.1 hc with h1 | h2
        · exact h1 ▸ List.mem_cons_self a rest
        · exact List.mem_cons_of_mem a (ih _ c h2)

/-- The bold matcher only emits characters of its input. -/
theorem boldM_subset : ∀ (s out r : List Char), boldM s = some (out, r) →
    (∀ c ∈ out, c ∈ s) ∧ (∀ c ∈ r, c ∈ s) := by
  intro s out r h
  simp only [boldM] at h
  split at h
  · cases h
  next r1 h1 =>
    split at h
    · cases h
    · split at h
      next rest h2 =>
        simp only [Option.some.injEq, Prod.mk.injEq] at h
        obtain ⟨hout, hr⟩ := h
        subst hout
        subst hr
        constructor
        · exact fun c hc => chopLit_mem h1 c (tw_mem hc)
        · exact fun c hc => chopLit_mem h1 c (dw_mem (chopLit_mem h2 c hc))
      next => cases h

/-- The italic matcher only emits characters of its input. -/
theorem starM_subset : ∀ (s out r : List Char), starM s = some (out, r) →
    (∀ c ∈ out, c ∈ s) ∧ (∀ c ∈ r, c ∈ s) := by
  intro s out r h
  simp only [starM] at h
  split at h
  · cases h
  next r1 h1 =>
    split at h
    · cases h
    · split at h
      next d rest hdrop =>
        split at h
        · simp only [Option.some.injEq, Prod.mk.injEq] at h
          obtain ⟨hout, hr⟩ := h
          subst hout
          subst hr
          constructor
          · exact fun c hc => chopLit_mem h1 c (tw_mem hc)
          · intro c hc
            have hmem : c ∈ r1.dropWhile (fun c => !(c = '*')) := by
              rw [hdrop]
              exact List.mem_cons_of_mem d hc
            exact chopLit_mem h1 c (dw_mem hmem)
        · cases h
      next => cases h

/-- The fenced-code matcher only emits characters of its input. -/
theorem ticksM_subset : ∀ (s out r : List Char), ticksM s = some (out, r) →
    (∀ c ∈ out, c ∈ s) ∧ (∀ c ∈ r, c ∈ s) := by
  intro s out r h
  simp only [ticksM] at h
  split at h
  · cases h
  next r1 h1 =>
    split at h
    next rest h2 =>
      simp only [Option.some.injEq, Prod.mk.injEq] at h
      obtain ⟨hout, hr⟩ := h
      subst hout
      subst hr
      constructor
      · intro c hc; cases hc
      · exact fun c hc => chopLit_mem h1 c (dw_mem (chopLit_mem h2 c hc))
    next => cases h

/-- The inline-code matcher only emits characters of its input. -/
theorem tickM_subset : ∀ (s out r : List Char), tickM s = some (out, r) →
    (∀ c ∈ out, c ∈ s) ∧ (∀ c ∈ r, c ∈ s) := by
  intro s out r h
  cases s with
  | nil => cases h
  | cons a r1 =>
    simp only [tickM] at h
    split at h
    · split at h
      · cases h
      · split at h
        next d rest hdrop =>
          split at h
          · simp only [Option.some.injEq, Prod.mk.injEq] at h
            obtain ⟨hout, hr⟩ := h
            subst hout
            subst hr
            constructor
            · exact fun c hc => List.mem_cons_of_mem a (tw_mem hc)
            · intro c hc
              have hmem : c ∈ r1.dropWhile (fun d => !(d = btick)) := by
                rw [hdrop]
                exact List.mem_cons_of_mem d hc
              exact List.mem_cons_of_mem a (dw_mem hmem)
          · cases h
        next => cases h
    · cases h

/-- The link matcher only emits characters of its input. -/
theorem linkM_subset : ∀ (s out r : List Char), linkM s = some (out, r) →
    (∀ c ∈ out, c ∈ s) ∧ (∀ c ∈ r, c ∈ s) := by
  intro s out r h
  cases s with
  | nil => cases h
  | cons a r1 =>
    simp only [linkM] at h
    split at h
    · split at h
      · cases h
      · split at h
        next d r2 hdrop =>
          split at h
          · split at h
            next e r3 =>
              split at h
              · split at h
                · cases h
                · split at h
                  next x rest hdrop2 =>
                    split at h
                    · simp only [Option.some.injEq, Prod.mk.injEq] at h
                      obtain ⟨hout, hr⟩ := h
                      subst hout
                      subst hr
                      constructor
                      · exact fun c hc => List.mem_cons_of_mem a (tw_mem hc)
                      · intro c hc
                        have h3 : c ∈ r3.dropWhile (fun x => !(x = ')')) := by
                          rw [hdrop2]
                          exact List.mem_cons_of_mem x hc
                        have h4 : c ∈ r1.dropWhile (fun d => !(d = ']')) := by
                          rw [hdrop]
                          exact List.mem_cons_of_mem d
                            (List.mem_cons_of_mem e (dw_mem h3))
                        exact List.mem_cons_of_mem a (dw_mem h4)
                    · cases h
                  next => cases h
              · cases h
            next => cases h
          · cases h
        next => cases h
    · cases h

/-- Characters of a cleaned substitution result come from the line. -/
theorem subs_mem {x : List Char} {c : Char}
    (h : c ∈ subTick (subTicks (subStar (subBold x)))) : c ∈ x :=
  scanSub_subset boldM_subset _ x c
    (scanSub_subset starM_subset _ _ c
      (scanSub_subset ticksM_subset _ _ c
        (scanSub_subset tickM_subset _ _ c h)))

/-- The head of a dropWhile result does not satisfy the predicate. -/
theorem head?_dropWhile_not (p : Char → Bool) :
    ∀ (l : List Char) (c : Char), (l.dropWhile p).head? = some c → p c = false := by
  intro l
  induction l with
  | nil => intro c h; cases h
  | cons a t ih =>
    intro c h
    by_cases hpa : p a = true
    · rw [List.dropWhile_cons, if_pos hpa] at h
      exact ih c h
    · rw [List.dropWhile_cons, if_neg hpa] at h
      rw [List.head?_cons, Option.some.injEq] at h
      subst h
      exact Bool.not_eq_true _ ▸ hpa

/-- dropWhile is the identity when the head does not satisfy the predicate. -/
theorem dropWhile_head_false (p : Char → Bool) (l : List Char)
    (h : ∀ c, l.head? = some c → p c = false) : l.dropWhile p = l := by
  cases l with
  | nil => rfl
  | cons a t => rw [List.dropWhile_cons, h a rfl]; simp

/-- A stripped string whose head and last character are not whitespace is
fixed by stripping. -/
theorem pyStrip_eq_self (l : List Char)
    (h1 : ∀ c, l.head? = some c → pyWS c = false)
    (h2 : ∀ c, l.reverse.head? = some c → pyWS c = false) : pyStrip l = l := by
  show ((l.dropWhile pyWS).reverse.dropWhile pyWS).reverse = l
  rw [dropWhile_head_false pyWS l h1, dropWhile_head_false pyWS l.reverse h2]
  exact List.reverse_reverse l

/-- The head of a stripped string is not whitespace. -/
theorem pyStrip_head_not_ws (l : List Char) :
    ∀ c, (pyStrip l).head? = some c → pyWS c = false := by
  intro c hc
  obtain ⟨t, ht⟩ := @List.dropWhile_suffix Char (l.dropWhile pyWS).reverse pyWS
  have hA : l.dropWhile pyWS = pyStrip l ++ t.reverse := by
    have h0 := congrArg List.reverse ht
    rw [List.reverse_append, List.reverse_reverse] at h0
    exact h0.symm
  have hne : pyStrip l ≠ [] := by
    intro h0
    rw [h0] at hc
    cases hc
  have hh : (l.dropWhile pyWS).head? = some c := by
    rw [hA, List.head?_append_of_ne_nil _ hne]
    exact hc
  exact head?_dropWhile_not pyWS l c hh

/-- The last character of a stripped string is not whitespace. -/
theorem pyStrip_revhead_not_ws (l : List Char) :
    ∀ c, (pyStrip l).reverse.head? = some c → pyWS c = false := by
  intro c hc
  have he : (pyStrip l).reverse = (l.dropWhile pyWS).reverse.dropWhile pyWS := by
    show (((l.dropWhile pyWS).reverse.dropWhile pyWS).reverse).reverse = _
    rw [List.reverse_reverse]
  rw [he] at hc
  exact head?_dropWhile_not pyWS _ c hc

/-- Stripping is idempotent. -/
theorem pyStrip_idem (l : List Char) : pyStrip (pyStrip l) = pyStrip l :=
  pyStrip_eq_self _ (pyStrip_head_not_ws l) (pyStrip_revhead_not_ws l)

/-- The head of a strip-fixed string is not whitespace. -/
theorem stripped_head {l : List Char} {c : Char} (hfix : pyStrip l = l)
    (h : l.head? = some c) : pyWS c = false :=
  pyStrip_head_not_ws l c (by rw [hfix]; exact h)

/-- The last character of a strip-fixed string is not whitespace. -/
theorem stripped_revhead {l : List Char} {c : Char} (hfix : pyStrip l = l)
    (h : l.reverse.head? = some c) : pyWS c = false :=
  pyStrip_revhead_not_ws l c (by rw [hfix]; exact h)

/-- A newline-join of nonempty strings is nonempty. -/
theorem joinNL_ne_nil : ∀ (L : List (List Char)), (∀ l ∈ L, l ≠ []) → L ≠ [] →
    joinNL L ≠ [] := by
  intro L hL hne
  cases L with
  | nil => exact absurd rfl hne
  | cons l t =>
    cases t with
    | nil => exact hL l (List.mem_cons_self l [])
    | cons l2 t2 =>
      show l ++ '\n' :: joinNL (l2 :: t2) ≠ []
      intro h0
      cases (List.append_eq_nil.1 h0).2

/-- The head of a newline-join is the head of its nonempty first string. -/
theorem joinNL_head? (l : List Char) (t : List (List Char)) (hl : l ≠ []) :
    (joinNL (l :: t)).head? = l.head? := by
  cases t with
  | nil => rfl
  | cons l2 t2 => exact List.head?_append_of_ne_nil l hl

/-- The last character of a newline-join of nonempty strings is the last
character of one of them. -/
theorem joinNL_revhead : ∀ (L : List (List Char)), (∀ l ∈ L, l ≠ []) → L ≠ [] →
    ∃ l ∈ L, (joinNL L).reverse.head? = l.reverse.head? := by
  intro L
  induction L with
  | nil => intro _ h; exact absurd rfl h
  | cons l t ih =>
    intro hL _
    cases t with
    | nil => exact ⟨l, List.mem_cons_self l [], rfl⟩
    | cons l2 t2 =>
      obtain ⟨l', hl', he⟩ :=
        ih (fun x hx => hL x (List.mem_cons_of_mem l hx)) (by simp)
      refine ⟨l', List.mem_cons_of_mem l hl', ?_⟩
      have hJne : joinNL (l2 :: t2) ≠ [] :=
        joinNL_ne_nil _ (fun x hx => hL x (List.mem_cons_of_mem l hx)) (by simp)
      show ((l ++ '\n' :: joinNL (l2 :: t2)).reverse).head? = l'.reverse.head?
      rw [List.reverse_append, List.reverse_cons]
      rw [List.head?_append_of_ne_nil _ (by simp)]
      rw [List.head?_append_of_ne_nil _ (by simpa using hJne)]
      exact he

/-- noDbl survives removing the head. -/
theorem noDbl_tail {a : Char} {l : List Char} (h : noDbl (a :: l) = true) :
    noDbl l = true := by
  cases l with
  | nil => rfl
  | cons b t => exact (Bool.and_eq_true_iff.1 h).2

/-- A string without newlines has no two adjacent newlines. -/
theorem noDbl_of_no_nl : ∀ (l : List Char), '\n' ∉ l → noDbl l = true := by
  intro l
  induction l with
  | nil => intro _; rfl
  | cons a t ih =>
    intro h
    cases t with
    | nil => rfl
    | cons b t2 =>
      have ha : ¬ a = '\n' := fun he => h (he ▸ List.mem_cons_self a (b :: t2))
      refine Bool.and_eq_true_iff.2 ⟨?_, ih (fun hm => h (List.mem_cons_of_mem a hm))⟩
      simp [ha]

/-- noDbl extends over a cons whose boundary has no adjacent newlines. -/
theorem noDbl_cons_of_head {a : Char} {l : List Char}
    (h : a ≠ '\n' ∨ l.head? ≠ some '\n') (hl : noDbl l = true) :
    noDbl (a :: l) = true := by
  cases l with
  | nil => rfl
  | cons b t =>
    refine Bool.and_eq_true_iff.2 ⟨?_, hl⟩
    rcases h with h | h
    · simp [h]
    · have hb : ¬ b = '\n' := fun he => h (by rw [List.head?_cons, he])
      simp [hb]

/-- noDbl of an append whose left part has no newlines. -/
theorem noDbl_append_no_nl (y : List Char) (hy : noDbl y = true) :
    ∀ x : List Char, '\n' ∉ x → noDbl (x ++ y) = true := by
  intro x
  induction x with
  | nil => intro _; simpa
  | cons a t ih =>
    intro hx
    have ha : a ≠ '\n' := fun he => hx (he ▸ List.mem_cons_self a t)
    exact noDbl_cons_of_head (Or.inl ha)
      (ih (fun hm => hx (List.mem_cons_of_mem a hm)))

/-- A newline-join of nonempty newline-free strings has no two adjacent
newlines. -/
theorem noDbl_joinNL : ∀ (L : List (List Char)),
    (∀ l ∈ L, l ≠ [] ∧ '\n' ∉ l) → noDbl (joinNL L) = true := by
  intro L
  induction L with
  | nil => intro _; rfl
  | cons l t ih =>
    intro hL
    cases t with
    | nil => exact noDbl_of_no_nl l (hL l (List.mem_cons_self l [])).2
    | cons l2 t2 =>
      have hl := hL l (List.mem_cons_self l (l2 :: t2))
      have htail := ih (fun x hx => hL x (List.mem_cons_of_mem l hx))
      have hl2 := hL l2 (List.mem_cons_of_mem l (List.mem_cons_self l2 t2))
      have hhd : (joinNL (l2 :: t2)).head? ≠ some '\n' := by
        rw [joinNL_head? l2 t2 hl2.1]
        cases l2 with
        | nil => exact absurd rfl hl2.1
        | cons c cs =>
          rw [List.head?_cons]
          intro hce
          rw [Option.some.injEq] at hce
          exact hl2.2 (hce ▸ List.mem_cons_self c cs)
      show noDbl (l ++ '\n' :: joinNL (l2 :: t2)) = true
      exact noDbl_append_no_nl ('\n' :: joinNL (l2 :: t2))
        (noDbl_cons_of_head (Or.inr hhd) htail) l hl.2

/-- The blank-collapsing substitution is the identity on a string without
two adjacent newlines. -/
theorem scanSub_nlRun_noop : ∀ (fuel : Nat) (s : List Char), noDbl s = true →
    scanSub nlRunM fuel s = s := by
  intro fuel
  induction fuel with
  | zero => intro s _; cases s <;> rfl
  | succ n ih =>
    intro s hs
    cases s with
    | nil => rfl
    | cons a rest =>
      have hm : nlRunM (a :: rest) = none := by
        cases rest with
        | nil => rfl
        | cons b t =>
          cases t with
          | nil => rfl
          | cons c t2 =>
            have hab : ¬ (a = '\n' ∧ b = '\n') := by
              have h1 := (Bool.and_eq_true_iff.1 hs).1
              intro hcon
              rw [hcon.1, hcon.2] at h1
              simp at h1
            simp only [nlRunM, ite_eq_right_iff]
            intro hcond
            rw [Bool.and_eq_true_iff, Bool.and_eq_true_iff] at hcond
            exact absurd ⟨by simpa using hcond.1.1, by simpa using hcond.1.2⟩ hab
      simp only [scanSub, hm]
      rw [ih rest (noDbl_tail hs)]

/-- collapseNL is the identity on a string without two adjacent newlines. -/
theorem collapseNL_noop (s : List Char) (h : noDbl s = true) : collapseNL s = s :=
  scanSub_nlRun_noop (s.length + 1) s h

/-- No member of a character split contains the separator. -/
theorem splitOnCh_sep_not_mem (sep : Char) : ∀ (s : List Char),
    ∀ l ∈ splitOnCh sep s, sep ∉ l := by
  intro s
  induction s with
  | nil =>
    intro l hl
    rw [show splitOnCh sep [] = [[]] from rfl, List.mem_singleton] at hl
    subst hl
    simp
  | cons c rest ih =>
    intro l hl
    by_cases hc : c = sep
    · rw [show splitOnCh sep (c :: rest) = if c = sep then [] :: splitOnCh sep rest
            else match splitOnCh sep rest with
                 | h :: t => (c :: h) :: t
                 | [] => [[c]] from rfl, if_pos hc] at hl
      rcases List.mem_cons.1 hl with h1 | h2
      · subst h1; simp
      · exact ih l h2
    · rw [show splitOnCh sep (c :: rest) = if c = sep then [] :: splitOnCh sep rest
            else match splitOnCh sep rest with
                 | h :: t => (c :: h) :: t
                 | [] => [[c]] from rfl, if_neg hc] at hl
      cases hsp : splitOnCh sep rest with
      | nil =>
        rw [hsp] at hl
        rw [List.mem_singleton] at hl
        subst hl
        intro hm
        rcases List.mem_cons.1 hm with h1 | h2
        · exact hc h1.symm
        · cases h2
      | cons h t =>
        rw [hsp] at hl
        rcases List.mem_cons.1 hl with h1 | h2
        · subst h1
          intro hm
          rcases List.mem_cons.1 hm with he | hmm
          · exact hc he.symm
          · exact ih h (by rw [hsp]; exact List.mem_cons_self h t) hmm
        · exact ih l (by rw [hsp]; exact List.mem_cons_of_mem h h2)

/-- Splitting a string that does not contain the separator gives the
singleton list. -/
theorem splitOnCh_of_not_mem (sep : Char) : ∀ (l : List Char), sep ∉ l →
    splitOnCh sep l = [l] := by
  intro l
  induction l with
  | nil => intro _; rfl
  | cons c rest ih =>
    intro h
    have hc : ¬ c = sep := fun he => h (by rw [← he]; exact List.mem_cons_self c rest)
    have ht := ih (fun hm => h (List.mem_cons_of_mem c hm))
    show (if c = sep then [] :: splitOnCh sep rest
          else match splitOnCh sep rest with
               | h :: t => (c :: h) :: t
               | [] => [[c]]) = [c :: rest]
    rw [if_neg hc, ht]

/-- Splitting past a separator peels off the separator-free prefix. -/
theorem splitOnCh_append (sep : Char) : ∀ (l rest : List Char), sep ∉ l →
    splitOnCh sep (l ++ sep :: rest) = l :: splitOnCh sep rest := by
  intro l rest
  induction l with
  | nil =>
    intro _
    show (if sep = sep then [] :: splitOnCh sep rest
          else match splitOnCh sep rest with
               | h :: t => (sep :: h) :: t
               | [] => [[sep]]) = [] :: splitOnCh sep rest
    rw [if_pos rfl]
  | cons c t ih =>
    intro h
    have hc : ¬ c = sep := fun he => h (by rw [← he]; exact List.mem_cons_self c t)
    have ht := ih (fun hm => h (List.mem_cons_of_mem c hm))
    show (if c = sep then [] :: splitOnCh sep (t ++ sep :: rest)
          else match splitOnCh sep (t ++ sep :: rest) with
               | h :: tl => (c :: h) :: tl
               | [] => [[c]]) = (c :: t) :: splitOnCh sep rest
    rw [if_neg hc, ht]

/-- Splitting a newline-join of nonempty newline-free strings recovers the
strings. -/
theorem splitOnCh_joinNL : ∀ (L : List (List Char)), L ≠ [] →
    (∀ l ∈ L, '\n' ∉ l) → splitOnCh '\n' (joinNL L) = L := by
  intro L
  induction L with
  | nil => intro h _; exact absurd rfl h
  | cons l t ih =>
    intro _ hL
    cases t with
    | nil => exact splitOnCh_of_not_mem '\n' l (hL l (List.mem_cons_self l []))
    | cons l2 t2 =>
      show splitOnCh '\n' (l ++ '\n' :: joinNL (l2 :: t2)) = l :: l2 :: t2
      rw [splitOnCh_append '\n' l _ (hL l (List.mem_cons_self l (l2 :: t2)))]
      rw [ih (by simp) (fun x hx => hL x (List.mem_cons_of_mem l hx))]

/-- Lines kept by cleanLine are nonempty, stripped, and newline-free when
the input line is newline-free. -/
theorem cleanLine_props (x l : List Char) (h : cleanLine x = some l) :
    l ≠ [] ∧ pyStrip l = l ∧ ('\n' ∉ x → '\n' ∉ l) := by
  simp only [cleanLine] at h
  by_cases h1 : isHeaderLine x = true
  · rw [if_pos h1] at h; cases h
  · rw [if_neg h1] at h
    by_cases h2 : isHRule (subTick (subTicks (subStar (subBold x)))) = true
    · rw [if_pos h2] at h; cases h
    · rw [if_neg h2] at h
      by_cases h3 :
          (pyStrip (subLink (subTick (subTicks (subStar (subBold x)))))).isEmpty = true
      · rw [if_pos h3] at h; cases h
      · rw [if_neg h3] at h
        rw [Option.some.injEq] at h
        subst h
        refine ⟨?_, pyStrip_idem _, ?_⟩
        · intro h0
          exact h3 (by rw [h0]; rfl)
        · intro hx hmem
          exact hx (subs_mem (scanSub_subset linkM_subset _ _ _ (pyStrip_mem _ hmem)))

/-- The kept lines of a nonempty input are nonempty, stripped and
newline-free, and the cleaner's output is their newline-join. -/
theorem clean_script_text_join (t : List Char) (ht : ¬ t.isEmpty = true) :
    (∀ x ∈ (splitOnCh '\n' t).filterMap cleanLine,
        x ≠ [] ∧ pyStrip x = x ∧ '\n' ∉ x) ∧
    clean_script_text t = joinNL ((splitOnCh '\n' t).filterMap cleanLine) := by
  have hLp : ∀ x ∈ (splitOnCh '\n' t).filterMap cleanLine,
      x ≠ [] ∧ pyStrip x = x ∧ '\n' ∉ x := by
    intro x hx
    obtain ⟨y, hy, hcy⟩ := List.mem_filterMap.1 hx
    have hprops := cleanLine_props y x hcy
    exact ⟨hprops.1, hprops.2.1, hprops.2.2 (splitOnCh_sep_not_mem '\n' t y hy)⟩
  refine ⟨hLp, ?_⟩
  show (if t.isEmpty = true then t
        else pyStrip (collapseNL (joinNL ((splitOnCh '\n' t).filterMap cleanLine))))
      = joinNL ((splitOnCh '\n' t).filterMap cleanLine)
  rw [if_neg ht]
  cases hLc : (splitOnCh '\n' t).filterMap cleanLine with
  | nil => rfl
  | cons l0 t0 =>
    have hmem : ∀ x ∈ l0 :: t0, x ≠ [] ∧ pyStrip x = x ∧ '\n' ∉ x := by
      rw [← hLc]
      exact hLp
    have hnd : noDbl (joinNL (l0 :: t0)) = true :=
      noDbl_joinNL _ (fun x hx => ⟨(hmem x hx).1, (hmem x hx).2.2⟩)
    rw [collapseNL_noop _ hnd]
    apply pyStrip_eq_self
    · intro c hc
      rw [joinNL_head? l0 t0 (hmem l0 (List.mem_cons_self l0 t0)).1] at hc
      exact stripped_head (hmem l0 (List.mem_cons_self l0 t0)).2.1 hc
    · intro c hc
      obtain ⟨l', hl', he⟩ :=
        joinNL_revhead (l0 :: t0) (fun x hx => (hmem x hx).1) (by simp)
      rw [he] at hc
      exact stripped_revhead (hmem l' hl').2.1 hc

/-- C9: clean_script_text returns a string with no leading or trailing
whitespace in which every contained line is nonempty and stripped; a falsy
input (the empty string, or None through the optional wrapper) is returned
unchanged. -/
theorem c9_clean_output_stripped_lines (t : List Char) :
    pyStrip (clean_script_text t) = clean_script_text t ∧
    (∀ l ∈ linesOf (clean_script_text t), l ≠ [] ∧ pyStrip l = l) ∧
    clean_script_text [] = [] ∧
    cleanTextOpt none = none := by
  refine ⟨?_, ?_, rfl, rfl⟩
  · by_cases ht : t.isEmpty = true
    · have ht' : t = [] := List.isEmpty_iff.1 ht
      subst ht'
      rfl
    · rw [(clean_script_text_join t ht).2]
      cases hLc : (splitOnCh '\n' t).filterMap cleanLine with
      | nil => rfl
      | cons l0 t0 =>
        have hmem : ∀ x ∈ l0 :: t0, x ≠ [] ∧ pyStrip x = x ∧ '\n' ∉ x := by
          rw [← hLc]
          exact (clean_script_text_join t ht).1
        apply pyStrip_eq_self
        · intro c hc
          rw [joinNL_head? l0 t0 (hmem l0 (List.mem_cons_self l0 t0)).1] at hc
          exact stripped_head (hmem l0 (List.mem_cons_self l0 t0)).2.1 hc
        · intro c hc
          obtain ⟨l', hl', he⟩ :=
            joinNL_revhead (l0 :: t0) (fun x hx => (hmem x hx).1) (by simp)
          rw [he] at hc
          exact stripped_revhead (hmem l' hl').2.1 hc
  · intro l hl
    by_cases ht : t.isEmpty = true
    · have ht' : t = [] := List.isEmpty_iff.1 ht
      subst ht'
      cases hl
    · rw [(clean_script_text_join t ht).2] at hl
      cases hLc : (splitOnCh '\n' t).filterMap cleanLine with
      | nil =>
        rw [hLc] at hl
        cases hl
      | cons l0 t0 =>
        rw [hLc] at hl
        have hmem : ∀ x ∈ l0 :: t0, x ≠ [] ∧ pyStrip x = x ∧ '\n' ∉ x := by
          rw [← hLc]
          exact (clean_script_text_join t ht).1
        have hjne : joinNL (l0 :: t0) ≠ [] :=
          joinNL_ne_nil _ (fun x hx => (hmem x hx).1) (by simp)
        rw [linesOf, if_neg (by simpa [List.isEmpty_iff] using hjne)] at hl
        rw [splitOnCh_joinNL (l0 :: t0) (by simp) (fun x hx => (hmem x hx).2.2)] at hl
        exact ⟨(hmem l hl).1, (hmem l hl).2.1⟩

/-- Witness for C9 at a two-line input with surrounding whitespace and a
blank line. -/
theorem c9_clean_output_stripped_lines_witness :
    lc "a" ∈ linesOf (clean_script_text (lc " a \n\n b ")) ∧
    (lc "a" ≠ [] ∧ pyStrip (lc "a") = lc "a") ∧
    pyStrip (clean_script_text (lc " a \n\n b ")) =
      clean_script_text (lc " a \n\n b ") := by
  have h := c9_clean_output_stripped_lines (lc " a \n\n b ")
  have hm : lc "a" ∈ linesOf (clean_script_text (lc " a \n\n b ")) := by decide
  exact ⟨hm, h.2.1 (lc "a") hm, h.1⟩

end Pipeline
